import Mathlib

/-!
Verification of the operator-tracking backend (`server.js` together with the
SQL schema in `database/schema.sql`).

The relational store is embedded shallowly: each table is a list of rows in
insertion order, `SERIAL` keys are explicit counters, SQL `NULL` is `Option`,
`TIME` values are minutes since midnight, `DATE` values are day indices and
`DECIMAL(4,2)` hours are stored as an integer number of hundredths.  Each
HTTP handler that the claims mention becomes a pure function from a store
(plus the request parameters and the current time) to a response paired with
the successor store.  Constraint behaviour of the schema is part of the
embedding: `shift_assignments.operator_id` is declared `ON DELETE CASCADE`
while `attendance_logs.operator_id` and `station_performance.operator_id`
are plain references, `operators.email` and `operators.employee_id` are
unique, and the department lookup of the CSV import uses `ILIKE`, i.e.
case-insensitive `LIKE`-pattern matching.
-/

namespace PulseOpTrail

/-- Row of the `departments` table (fields used by the claims). -/
structure Department where
  id : Nat
  name : String
deriving Repr, DecidableEq

/-- Row of the `stations` table. -/
structure Station where
  id : Nat
  name : String
  line_id : Option Nat
  position_order : Nat
  status : String
  efficiency_percentage : Int
  target_efficiency : Int
deriving Repr, DecidableEq

/-- Row of the `operators` table.  `last_active` is an abstract timestamp. -/
structure Operator where
  id : Nat
  name : String
  email : String
  employee_id : Option String
  department_id : Option Nat
  skill_level : String
  status : String
  last_active : Nat
deriving Repr, DecidableEq

/-- Row of the `shifts` table. -/
structure Shift where
  id : Nat
  name : String
  start_time : Nat
  end_time : Nat
  department_id : Option Nat
  capacity : Nat
  is_active : Bool
deriving Repr, DecidableEq

/-- Row of the `shift_assignments` table. -/
structure ShiftAssignment where
  id : Nat
  shift_id : Nat
  operator_id : Nat
  assigned_date : Nat
  station_id : Option Nat
deriving Repr, DecidableEq

/-- Row of the `attendance_logs` table.  `clock_in`/`clock_out` are minutes
since midnight; `total_hours` is in hundredths of an hour. -/
structure AttendanceLog where
  id : Nat
  operator_id : Nat
  date : Nat
  clock_in : Option Nat
  clock_out : Option Nat
  total_hours : Int
  status : String
  shift_id : Option Nat
deriving Repr, DecidableEq

/-- Row of the `station_performance` table (only the operator reference
matters for the claims: it blocks operator deletion). -/
structure StationPerformance where
  id : Nat
  station_id : Option Nat
  operator_id : Option Nat
  date : Nat
  shift_id : Option Nat
deriving Repr, DecidableEq

/-- The whole relational store, plus the `SERIAL` counters of the tables the
embedded operations insert into. -/
structure Store where
  departments : List Department
  stations : List Station
  operators : List Operator
  shifts : List Shift
  shift_assignments : List ShiftAssignment
  attendance_logs : List AttendanceLog
  station_performance : List StationPerformance
  next_operator_id : Nat
  next_assignment_id : Nat
  next_log_id : Nat
deriving Repr, DecidableEq

/-- Errors surfaced by the handlers (HTTP 400/404/500 responses). -/
inductive ApiError where
  | validation
  | notFound
  | alreadyClockedIn
  | noActiveClockIn
  | fkViolation
  | uniqueViolation
deriving Repr, DecidableEq

deriving instance DecidableEq for Except

/-- Result of one handler call: the response and the store afterwards. -/
structure OpResult where
  resp : Except ApiError Unit
  store : Store
deriving Repr, DecidableEq

/-- Whether an operator row with the given id exists. -/
def operatorExists (s : Store) (oid : Nat) : Bool :=
  s.operators.any (fun o => o.id == oid)

/-- Whether a shift row with the given id exists. -/
def shiftExists (s : Store) (sid : Nat) : Bool :=
  s.shifts.any (fun sh => sh.id == sid)

/-- Whether a station row with the given id exists. -/
def stationExists (s : Store) (sid : Nat) : Bool :=
  s.stations.any (fun st => st.id == sid)

/-- Whether a non-cascading foreign key still references the operator:
`attendance_logs.operator_id` and `station_performance.operator_id` have no
`ON DELETE CASCADE`, so such rows block a `DELETE` of the operator. -/
def operatorReferenced (s : Store) (oid : Nat) : Bool :=
  s.attendance_logs.any (fun l => l.operator_id == oid) ||
    s.station_performance.any (fun p => p.operator_id == some oid)

/-- `DELETE /api/operators/:id`: `DELETE FROM operators WHERE id = $1`.
With no matching row the handler answers 404.  With a matching row,
dependent `shift_assignments` rows are cascade-deleted by the schema, while
a dependent `attendance_logs` or `station_performance` row makes the
statement fail with a foreign-key violation (500), leaving the store
unchanged. -/
def deleteOperator (s : Store) (oid : Nat) : OpResult :=
  if operatorExists s oid then
    if operatorReferenced s oid then
      ⟨.error .fkViolation, s⟩
    else
      ⟨.ok (), { s with
        operators := s.operators.filter (fun o => !(o.id == oid)),
        shift_assignments :=
          s.shift_assignments.filter (fun a => !(a.operator_id == oid)) }⟩
  else
    ⟨.error .notFound, s⟩

/-- `PUT /api/stations/:id/efficiency`: `UPDATE stations SET
efficiency_percentage = $1 WHERE id = $2`, 404 when no row matched. -/
def updateStationEfficiency (s : Store) (sid : Nat) (eff : Int) : OpResult :=
  if stationExists s sid then
    ⟨.ok (), { s with stations := s.stations.map (fun st =>
      if st.id == sid then { st with efficiency_percentage := eff } else st) }⟩
  else
    ⟨.error .notFound, s⟩

/-- Whether a `shift_assignments` row matches the conflict key
`(shift_id, operator_id, assigned_date)`. -/
def matchesAssignKey (shiftId opId d : Nat) (a : ShiftAssignment) : Bool :=
  a.shift_id == shiftId && a.operator_id == opId && a.assigned_date == d

/-- `POST /api/shift-assignments`: validates that `shift_id` and
`operator_id` are truthy, then runs `INSERT ... ON CONFLICT (shift_id,
operator_id, assigned_date) DO UPDATE SET station_id = $3`, with
`assigned_date` defaulting to today.  Foreign keys on shift, operator and
station are checked by the store. -/
def assignOperator (s : Store) (shiftId opId : Nat) (stationId : Option Nat)
    (assignedDate : Option Nat) (today : Nat) : OpResult :=
  if shiftId == 0 || opId == 0 then
    ⟨.error .validation, s⟩
  else
    let d := assignedDate.getD today
    if !shiftExists s shiftId || !operatorExists s opId ||
        (match stationId with
         | some st => !stationExists s st
         | none => false) then
      ⟨.error .fkViolation, s⟩
    else if s.shift_assignments.any (matchesAssignKey shiftId opId d) then
      ⟨.ok (), { s with shift_assignments := s.shift_assignments.map (fun a =>
        if matchesAssignKey shiftId opId d a then
          { a with station_id := stationId }
        else a) }⟩
    else
      ⟨.ok (), { s with
        shift_assignments := s.shift_assignments ++
          [⟨s.next_assignment_id, shiftId, opId, d, stationId⟩],
        next_assignment_id := s.next_assignment_id + 1 }⟩

/-- `UPDATE operators SET status = $1, last_active = CURRENT_TIMESTAMP
WHERE id = $2` (the trailing side effect of both attendance handlers). -/
def setOperatorStatus (s : Store) (oid : Nat) (st : String) (tstamp : Nat) :
    Store :=
  { s with operators := s.operators.map (fun o =>
      if o.id == oid then { o with status := st, last_active := tstamp }
      else o) }

/-- Whether an `attendance_logs` row matches the key `(operator_id, date)`. -/
def matchesLogKey (opId d : Nat) (l : AttendanceLog) : Bool :=
  l.operator_id == opId && l.date == d

/-- `POST /api/attendance/clock-in`: selects the rows for
`(operator_id, today)`; if the first one has a non-null `clock_in` it
answers `Already clocked in today`; with a row present it updates
`clock_in`, `status`, `shift_id` on the `(operator_id, date)` rows; with no
row it inserts one with status `present`; finally it sets the operator
`online`.  Foreign keys on the inserted/updated `operator_id` and
`shift_id` are checked by the store. -/
def clockIn (s : Store) (opId : Nat) (shiftId : Option Nat)
    (today now tstamp : Nat) : OpResult :=
  match (s.attendance_logs.filter (matchesLogKey opId today)).head? with
  | some l0 =>
    if l0.clock_in.isSome then
      ⟨.error .alreadyClockedIn, s⟩
    else if (match shiftId with
             | some sh => !shiftExists s sh
             | none => false) then
      ⟨.error .fkViolation, s⟩
    else
      let s1 := { s with attendance_logs := s.attendance_logs.map (fun l =>
        if matchesLogKey opId today l then
          { l with clock_in := some now, status := "present",
                   shift_id := shiftId }
        else l) }
      ⟨.ok (), setOperatorStatus s1 opId "online" tstamp⟩
  | none =>
    if !operatorExists s opId ||
        (match shiftId with
         | some sh => !shiftExists s sh
         | none => false) then
      ⟨.error .fkViolation, s⟩
    else
      let s1 := { s with
        attendance_logs := s.attendance_logs ++
          [⟨s.next_log_id, opId, today, some now, none, 0, "present",
            shiftId⟩],
        next_log_id := s.next_log_id + 1 }
      ⟨.ok (), setOperatorStatus s1 opId "online" tstamp⟩

/-- `Math.round`: round to the nearest integer, halves toward positive
infinity. -/
def jsRound (q : Rat) : Int := Int.floor (q + 1 / 2)

/-- `Math.round((clockOutTime - clockInTime) / (1000 * 60 * 60) * 100) / 100`
with both times in minutes since midnight of the same day; the result is the
stored `total_hours` in hundredths of an hour. -/
def totalHoursHundredths (clockInMin clockOutMin : Nat) : Int :=
  jsRound ((((clockOutMin : Rat) - (clockInMin : Rat)) * 60000) /
    (1000 * 60 * 60) * 100)

/-- `POST /api/attendance/clock-out`: selects the rows for
`(operator_id, today)` with non-null `clock_in` and null `clock_out`; with
none it answers `No active clock-in found for today`; otherwise it computes
`total_hours` from the first such row and updates `clock_out` and
`total_hours` on the `(operator_id, date)` rows, then sets the operator
`offline`. -/
def clockOut (s : Store) (opId : Nat) (today now tstamp : Nat) : OpResult :=
  match (s.attendance_logs.filter (fun l =>
      matchesLogKey opId today l && l.clock_in.isSome &&
        l.clock_out.isNone)).head? with
  | none => ⟨.error .noActiveClockIn, s⟩
  | some l0 =>
    let th := totalHoursHundredths (l0.clock_in.getD 0) now
    let s1 := { s with attendance_logs := s.attendance_logs.map (fun l =>
      if matchesLogKey opId today l then
        { l with clock_out := some now, total_hours := th }
      else l) }
    ⟨.ok (), setOperatorStatus s1 opId "offline" tstamp⟩

/-- One record produced by the CSV parser.  A column missing from the file
is `none`; a present column is `some` (possibly empty) text. -/
structure ImportRow where
  name : Option String
  email : Option String
  employee_id : Option String
  department_name : Option String
  skill_level : Option String
deriving Repr, DecidableEq

/-- One entry of the `errors` array of the import response. -/
inductive ImportError where
  | skippedMissingNameOrEmail (row : ImportRow)
  | rowFailed (row : ImportRow)
deriving Repr, DecidableEq

/-- JavaScript falsiness of an optional string field (`undefined` and the
empty string are falsy). -/
def strFalsy : Option String → Bool
  | none => true
  | some s => s == ""

/-- `row skipped` test of the import loop: `if (!name || !email)`. -/
def rowBlank (r : ImportRow) : Bool :=
  strFalsy r.name || strFalsy r.email

/-- Whitespace trimming (the `trim()` of the JavaScript import loop),
defined over the character list so that it is kernel-computable. -/
def jsTrim (s : String) : String :=
  ⟨((s.data.dropWhile Char.isWhitespace).reverse.dropWhile
    Char.isWhitespace).reverse⟩

/-- Case-insensitive `LIKE`-pattern matching (the semantics of `ILIKE`):
`%` matches any sequence, `_` matches one character, backslash escapes the
following character, any other character matches itself up to case.  First
argument is the pattern, second the subject; both as character lists. -/
def likeMatches : List Char → List Char → Bool
  | [], s => s.isEmpty
  | p :: ps, s =>
    if p = '%' then s.tails.any (fun t => likeMatches ps t)
    else
      match s with
      | [] => false
      | c :: ss =>
        if p = '_' then likeMatches ps ss
        else if p = '\\' then
          match ps with
          | [] => false
          | p2 :: ps2 => p2.toLower == c.toLower && likeMatches ps2 ss
        else p.toLower == c.toLower && likeMatches ps ss

/-- `SELECT id FROM departments WHERE name ILIKE $1` with the trimmed
`department_name` as the pattern; the handler takes the first returned row. -/
def resolveDepartment (depts : List Department) (dname : String) :
    Option Nat :=
  (depts.find? (fun d => likeMatches (jsTrim dname).data d.name.data)).map
    (fun d => d.id)

/-- Trimmed imported name (only evaluated on non-blank rows). -/
def rowName (r : ImportRow) : String := jsTrim (r.name.getD "")

/-- Trimmed imported email (only evaluated on non-blank rows). -/
def rowEmail (r : ImportRow) : String := jsTrim (r.email.getD "")

/-- `employee_id?.trim()`: `undefined` stays `NULL`. -/
def rowEmp (r : ImportRow) : Option String := r.employee_id.map jsTrim

/-- `skill_level?.trim() || 'beginner'`. -/
def rowSkill (r : ImportRow) : String :=
  match r.skill_level with
  | none => "beginner"
  | some s => if jsTrim s == "" then "beginner" else jsTrim s

/-- Department reference of an imported row: looked up only when
`department_name` is truthy, left `NULL` when nothing matches. -/
def rowDept (depts : List Department) (r : ImportRow) : Option Nat :=
  match r.department_name with
  | none => none
  | some dn => if dn == "" then none else resolveDepartment depts dn

/-- `INSERT INTO operators ... ON CONFLICT (email) DO UPDATE SET name,
employee_id, department_id, skill_level`.  A conflict on the `email` unique
constraint turns the insert into an update of the conflicting row; a
conflict on the `employee_id` unique constraint (which is not the
`ON CONFLICT` arbiter) makes the statement fail. -/
def upsertOperator (s : Store) (name email : String) (emp : Option String)
    (dept : Option Nat) (skill : String) (tstamp : Nat) :
    Except ApiError Store :=
  match s.operators.find? (fun o => o.email == email) with
  | some o0 =>
    if (match emp with
        | some e => s.operators.any (fun o =>
            !(o.id == o0.id) && o.employee_id == some e)
        | none => false) then
      .error .uniqueViolation
    else
      .ok { s with operators := s.operators.map (fun o =>
        if o.email == email then
          { o with name := name, employee_id := emp,
                   department_id := dept, skill_level := skill }
        else o) }
  | none =>
    if (match emp with
        | some e => s.operators.any (fun o => o.employee_id == some e)
        | none => false) then
      .error .uniqueViolation
    else
      .ok { s with
        operators := s.operators ++
          [⟨s.next_operator_id, name, email, emp, dept, skill, "offline",
            tstamp⟩],
        next_operator_id := s.next_operator_id + 1 }

/-- One iteration of the import loop: skip blank rows with an error entry,
otherwise resolve the department and upsert; a failing statement is caught
and recorded, never aborting the batch. -/
def processRow (s : Store) (r : ImportRow) (tstamp : Nat) :
    Option ImportError × Store :=
  if rowBlank r then
    (some (.skippedMissingNameOrEmail r), s)
  else
    match upsertOperator s (rowName r) (rowEmail r) (rowEmp r)
        (rowDept s.departments r) (rowSkill r) tstamp with
    | .ok s' => (none, s')
    | .error _ => (some (.rowFailed r), s)

/-- Response of `POST /api/import/operators`. -/
structure ImportResult where
  imported : Nat
  errors : List ImportError
  store : Store
deriving Repr, DecidableEq

/-- `POST /api/import/operators`: process the parsed rows in order,
counting successes and collecting per-row errors. -/
def importOperators (s : Store) (rows : List ImportRow) (tstamp : Nat) :
    ImportResult :=
  match rows with
  | [] => ⟨0, [], s⟩
  | r :: rs =>
    match processRow s r tstamp with
    | (none, s') =>
      let rest := importOperators s' rs tstamp
      ⟨rest.imported + 1, rest.errors, rest.store⟩
    | (some e, s') =>
      let rest := importOperators s' rs tstamp
      ⟨rest.imported, e :: rest.errors, rest.store⟩

/-- Whether processing the rows from the given store raises no caught
statement error (blank-row skips are fine, `rowFailed` entries are not). -/
def cleanRun (s : Store) (rows : List ImportRow) (tstamp : Nat) : Bool :=
  match rows with
  | [] => true
  | r :: rs =>
    match processRow s r tstamp with
    | (some (.rowFailed _), _) => false
    | (_, s') => cleanRun s' rs tstamp

/-- Key of the `attendance_logs` uniqueness constraint. -/
def logKey (l : AttendanceLog) : Nat × Nat := (l.operator_id, l.date)

/-- Key of the `shift_assignments` uniqueness constraint. -/
def assignKey (a : ShiftAssignment) : Nat × Nat × Nat :=
  (a.shift_id, a.operator_id, a.assigned_date)

/-- Schema invariant `UNIQUE(operator_id, date)` on `attendance_logs`. -/
def attendanceUnique (s : Store) : Prop :=
  (s.attendance_logs.map logKey).Nodup

/-- Schema invariant `UNIQUE(shift_id, operator_id, assigned_date)` on
`shift_assignments`. -/
def assignmentUnique (s : Store) : Prop :=
  (s.shift_assignments.map assignKey).Nodup

/-- Schema invariant `email UNIQUE` on `operators`. -/
def emailUnique (s : Store) : Prop :=
  (s.operators.map (fun o => o.email)).Nodup

/-- Schema invariant `employee_id UNIQUE` on `operators` (`NULL`s do not
collide). -/
def employeeUnique (s : Store) : Prop :=
  (s.operators.filterMap (fun o => o.employee_id)).Nodup

instance (s : Store) : Decidable (attendanceUnique s) :=
  inferInstanceAs (Decidable ((s.attendance_logs.map logKey).Nodup))

instance (s : Store) : Decidable (assignmentUnique s) :=
  inferInstanceAs (Decidable ((s.shift_assignments.map assignKey).Nodup))

instance (s : Store) : Decidable (emailUnique s) :=
  inferInstanceAs (Decidable ((s.operators.map Operator.email).Nodup))

instance (s : Store) : Decidable (employeeUnique s) :=
  inferInstanceAs
    (Decidable ((s.operators.filterMap Operator.employee_id).Nodup))

/-- Primary-key and `SERIAL` well-formedness of the `operators` table: ids
are distinct and below the sequence counter. -/
def operatorsWF (s : Store) : Prop :=
  (s.operators.map Operator.id).Nodup ∧
    ∀ o ∈ s.operators, o.id < s.next_operator_id

instance (s : Store) : Decidable (operatorsWF s) :=
  inferInstanceAs (Decidable ((s.operators.map Operator.id).Nodup ∧
    ∀ o ∈ s.operators, o.id < s.next_operator_id))

/-- Case-insensitive equality of two strings (lower-casing both). -/
def caseInsensitiveEq (a b : String) : Bool :=
  a.data.map Char.toLower == b.data.map Char.toLower

/-- Department resolution as the spec words it, for comparison with
`resolveDepartment`: a case-insensitive exact match on the department
name. -/
def specResolveDepartment (depts : List Department) (dname : String) :
    Option Nat :=
  (depts.find? (fun d => caseInsensitiveEq (jsTrim dname) d.name)).map
    (fun d => d.id)

/-- Whether a string is free of the `LIKE` metacharacters `%`, `_` and the
escape character. -/
def noLikeSpecials (p : String) : Bool :=
  p.data.all (fun c => !(c == '%' || c == '_' || c == '\\'))

/-- The imported operator row has been recorded in the store: some operator
carries exactly the row's trimmed values, with the department resolved
against the store's departments. -/
def rowApplied (s : Store) (r : ImportRow) : Prop :=
  ∃ o ∈ s.operators, o.email = rowEmail r ∧ o.name = rowName r ∧
    o.employee_id = rowEmp r ∧ o.department_id = rowDept s.departments r ∧
    o.skill_level = rowSkill r

/-- Parameters of one `POST /api/shift-assignments` call (the request body
plus that call's current date). -/
structure AssignCall where
  shift_id : Nat
  operator_id : Nat
  station_id : Option Nat
  assigned_date : Option Nat
  today : Nat
deriving Repr, DecidableEq

/-- Store reached by one assignment call. -/
def applyAssign (s : Store) (c : AssignCall) : Store :=
  (assignOperator s c.shift_id c.operator_id c.station_id c.assigned_date
    c.today).store

/-- Store reached by a sequence of assignment calls. -/
def applyAssigns (s : Store) (cs : List AssignCall) : Store :=
  cs.foldl applyAssign s

/-- Base store for the concrete instances: one department, one station, one
operator, one shift, nothing else. -/
def baseStore : Store where
  departments := [⟨1, "Production"⟩]
  stations := [⟨1, "BANT BASI", some 1, 1, "active", 0, 100⟩]
  operators := [⟨1, "Ada", "ada@x.com", some "E1", some 1, "beginner",
    "offline", 0⟩]
  shifts := [⟨1, "Morning", 360, 840, some 1, 10, true⟩]
  shift_assignments := []
  attendance_logs := []
  station_performance := []
  next_operator_id := 2
  next_assignment_id := 1
  next_log_id := 1

/-- Store whose operator 1 is referenced by an attendance log and by a
shift assignment. -/
def loggedStore : Store :=
  { baseStore with
    shift_assignments := [⟨1, 1, 1, 7, some 1⟩],
    attendance_logs := [⟨1, 1, 7, some 480, none, 0, "present", some 1⟩],
    next_assignment_id := 2,
    next_log_id := 2 }

/-- Store whose operator 1 has a shift assignment but no attendance log. -/
def assignedOnlyStore : Store :=
  { baseStore with
    shift_assignments := [⟨1, 1, 1, 7, some 1⟩],
    next_assignment_id := 2 }

/-- Store with a pre-seeded absent attendance row (null clock-in) for
operator 1. -/
def seededAbsentStore : Store :=
  { baseStore with
    attendance_logs := [⟨1, 1, 7, none, none, 0, "absent", none⟩],
    next_log_id := 2 }

/-- Two import rows with distinct emails but a colliding employee id. -/
def empClashRows : List ImportRow :=
  [⟨some "Ann", some "ann@x.com", some "E9", none, none⟩,
   ⟨some "Bob", some "bob@x.com", some "E9", none, none⟩]

/-- Import rows for the idempotence counterexample: the first row reuses
the stored operator's employee id under a fresh email, the second row
frees that employee id by updating the stored operator. -/
def idemRows : List ImportRow :=
  [⟨some "Ann", some "ann@x.com", some "E1", none, none⟩,
   ⟨some "Ada", some "ada@x.com", some "E2", none, none⟩]

/-- Two import rows: a well-formed one and one with a blank name. -/
def mixedRows : List ImportRow :=
  [⟨some "Jane Doe", some "jane@x.com", some "EMP9", some "Production",
     some "advanced"⟩,
   ⟨some "", some "x@y.z", none, none, none⟩]

/-- A well-formed import row with a wildcard department name. -/
def wildcardRow : ImportRow :=
  ⟨some "Jane Doe", some "jane@x.com", some "EMP9", some "Pro%",
    some "advanced"⟩

/-- A well-formed import row whose department does not exist. -/
def nodeptRow : ImportRow :=
  ⟨some "Jane Doe", some "jane@x.com", some "EMP9", some "Nonexistent",
    some "advanced"⟩

section ListLemmas

variable {α : Type} {β : Type}

lemma map_id_of {f : α → α} :
    ∀ {l : List α}, (∀ x ∈ l, f x = x) → l.map f = l
  | [], _ => rfl
  | a :: t, h => by
    rw [List.map_cons, h a (List.mem_cons_self a t),
      map_id_of (fun x hx => h x (List.mem_cons_of_mem a hx))]

lemma length_le_one_of_nodup_const {l : List α} {c : α} (hn : l.Nodup)
    (h : ∀ x ∈ l, x = c) : l.length ≤ 1 := by
  match l, hn with
  | [], _ => simp
  | [a], _ => simp
  | a :: b :: t, hn =>
    exfalso
    have ha := h a (by simp)
    have hb := h b (by simp)
    rw [List.nodup_cons] at hn
    exact hn.1 (by simp [ha, hb])

lemma eq_singleton_of_mem_of_length_le_one {l : List α} {a : α}
    (ha : a ∈ l) (hl : l.length ≤ 1) : l = [a] := by
  match l with
  | [] => cases ha
  | [x] =>
    rw [List.mem_singleton] at ha
    rw [ha]
  | x :: y :: t => simp at hl

lemma nodup_filterMap_inj {l : List α} {f : α → Option β}
    (h : (l.filterMap f).Nodup) :
    ∀ {a b : α} {x : β}, a ∈ l → b ∈ l → f a = some x → f b = some x →
      a = b := by
  induction l with
  | nil => intro a b x ha; cases ha
  | cons c t ih =>
    intro a b x ha hb hfa hfb
    rw [List.filterMap_cons] at h
    cases hc : f c with
    | none =>
      rw [hc] at h
      rcases List.mem_cons.mp ha with rfl | ha'
      · rw [hfa] at hc; cases hc
      rcases List.mem_cons.mp hb with rfl | hb'
      · rw [hfb] at hc; cases hc
      exact ih h ha' hb' hfa hfb
    | some y =>
      rw [hc] at h
      rw [List.nodup_cons] at h
      rcases List.mem_cons.mp ha with rfl | ha' <;>
        rcases List.mem_cons.mp hb with rfl | hb'
      · rfl
      · exfalso
        apply h.1
        rw [hfa] at hc
        injection hc with e
        rw [← e]
        exact List.mem_filterMap.mpr ⟨b, hb', hfb⟩
      · exfalso
        apply h.1
        rw [hfb] at hc
        injection hc with e
        rw [← e]
        exact List.mem_filterMap.mpr ⟨a, ha', hfa⟩
      · exact ih h.2 ha' hb' hfa hfb

end ListLemmas

lemma matchesLogKey_iff {op d : Nat} {l : AttendanceLog} :
    matchesLogKey op d l = true ↔ l.operator_id = op ∧ l.date = d := by
  simp [matchesLogKey]

lemma logKey_of_matches {op d : Nat} {l : AttendanceLog}
    (h : matchesLogKey op d l = true) : logKey l = (op, d) := by
  rcases matchesLogKey_iff.mp h with ⟨h1, h2⟩
  simp [logKey, h1, h2]

lemma matches_of_logKey {op d : Nat} {l : AttendanceLog}
    (h : logKey l = (op, d)) : matchesLogKey op d l = true := by
  rw [logKey, Prod.mk.injEq] at h
  exact matchesLogKey_iff.mpr h

lemma log_eq_of_matches {logs : List AttendanceLog}
    (hn : (logs.map logKey).Nodup) {l l' : AttendanceLog} {op d : Nat}
    (hl : l ∈ logs) (hl' : l' ∈ logs) (hm : matchesLogKey op d l = true)
    (hm' : matchesLogKey op d l' = true) : l = l' :=
  List.inj_on_of_nodup_map hn hl hl'
    (by rw [logKey_of_matches hm, logKey_of_matches hm'])

lemma filter_matches_eq_singleton {logs : List AttendanceLog}
    {op d : Nat} {l0 : AttendanceLog} (hn : (logs.map logKey).Nodup)
    (hl0 : l0 ∈ logs) (hm : matchesLogKey op d l0 = true) :
    logs.filter (matchesLogKey op d) = [l0] := by
  apply eq_singleton_of_mem_of_length_le_one (List.mem_filter.mpr ⟨hl0, hm⟩)
  have hsub : ((logs.filter (matchesLogKey op d)).map logKey).Sublist
      (logs.map logKey) :=
    (List.filter_sublist logs).map logKey
  have hnd : ((logs.filter (matchesLogKey op d)).map logKey).Nodup :=
    hn.sublist hsub
  have hconst : ∀ x ∈ (logs.filter (matchesLogKey op d)).map logKey,
      x = (op, d) := by
    intro x hx
    rcases List.mem_map.mp hx with ⟨l, hlmem, rfl⟩
    exact logKey_of_matches (List.mem_filter.mp hlmem).2
  have := length_le_one_of_nodup_const hnd hconst
  simpa using this

lemma matchesAssignKey_iff {sh op d : Nat} {a : ShiftAssignment} :
    matchesAssignKey sh op d a = true ↔
      a.shift_id = sh ∧ a.operator_id = op ∧ a.assigned_date = d := by
  simp [matchesAssignKey, and_assoc]

lemma assignKey_of_matches {sh op d : Nat} {a : ShiftAssignment}
    (h : matchesAssignKey sh op d a = true) : assignKey a = (sh, op, d) := by
  rcases matchesAssignKey_iff.mp h with ⟨h1, h2, h3⟩
  simp [assignKey, h1, h2, h3]

lemma matches_of_assignKey {sh op d : Nat} {a : ShiftAssignment}
    (h : assignKey a = (sh, op, d)) : matchesAssignKey sh op d a = true := by
  rw [assignKey, Prod.mk.injEq, Prod.mk.injEq] at h
  exact matchesAssignKey_iff.mpr ⟨h.1, h.2.1, h.2.2⟩

lemma clockIn_attendanceUnique (s : Store) (opId : Nat)
    (shiftId : Option Nat) (today now ts : Nat) (h : attendanceUnique s) :
    attendanceUnique (clockIn s opId shiftId today now ts).store := by
  unfold attendanceUnique at *
  unfold clockIn
  split
  · -- a row for the key exists
    split
    · exact h
    · split
      · exact h
      · show ((s.attendance_logs.map _).map logKey).Nodup
        rw [List.map_map]
        rw [List.map_congr_left (g := logKey) ?pt]
        · exact h
        case pt =>
          intro l _
          simp only [Function.comp_apply]
          split <;> rfl
  · -- no row for the key: an insert
    rename_i heq
    split
    · exact h
    · show ((s.attendance_logs ++ _).map logKey).Nodup
      rw [List.map_append]
      rw [List.nodup_append]
      refine ⟨h, by simp, ?_⟩
      intro x hx hx'
      rcases List.mem_map.mp hx with ⟨l, hl, rfl⟩
      have hx'' : logKey l = (opId, today) := by
        simpa [logKey] using hx'
      have hmem : l ∈ s.attendance_logs.filter (matchesLogKey opId today) :=
        List.mem_filter.mpr ⟨hl, matches_of_logKey hx''⟩
      rw [List.head?_eq_none_iff.mp heq] at hmem
      cases hmem

lemma clockOut_attendanceUnique (s : Store) (opId today now ts : Nat)
    (h : attendanceUnique s) :
    attendanceUnique (clockOut s opId today now ts).store := by
  unfold attendanceUnique at *
  unfold clockOut
  split
  · exact h
  · show ((s.attendance_logs.map _).map logKey).Nodup
    rw [List.map_map]
    rw [List.map_congr_left (g := logKey) ?pt]
    · exact h
    case pt =>
      intro l _
      simp only [Function.comp_apply]
      split <;> rfl

lemma assignOperator_assignmentUnique (s : Store) (shiftId opId : Nat)
    (stationId : Option Nat) (assignedDate : Option Nat) (today : Nat)
    (h : assignmentUnique s) :
    assignmentUnique
      (assignOperator s shiftId opId stationId assignedDate today).store := by
  unfold assignmentUnique at *
  unfold assignOperator
  split
  · exact h
  · split
    · exact h
    · dsimp only
      split
      · show ((s.shift_assignments.map _).map assignKey).Nodup
        rw [List.map_map]
        rw [List.map_congr_left (g := assignKey) ?pt]
        · exact h
        case pt =>
          intro a _
          simp only [Function.comp_apply]
          split <;> rfl
      · rename_i hany
        show ((s.shift_assignments ++ _).map assignKey).Nodup
        rw [List.map_append]
        rw [List.nodup_append]
        refine ⟨h, by simp, ?_⟩
        intro x hx hx'
        rcases List.mem_map.mp hx with ⟨a, ha, rfl⟩
        have hx'' : assignKey a =
            (shiftId, opId, assignedDate.getD today) := by
          simpa [assignKey] using hx'
        have : s.shift_assignments.any
            (matchesAssignKey shiftId opId (assignedDate.getD today)) =
              true :=
          List.any_eq_true.mpr ⟨a, ha, matches_of_assignKey hx''⟩
        exact hany this

lemma applyAssigns_assignmentUnique (cs : List AssignCall) :
    ∀ s : Store, assignmentUnique s → assignmentUnique (applyAssigns s cs) := by
  induction cs with
  | nil => intro s h; exact h
  | cons c cs ih =>
    intro s h
    exact ih _ (assignOperator_assignmentUnique s c.shift_id c.operator_id
      c.station_id c.assigned_date c.today h)

/-- C10: updating a station's efficiency changes only the
`efficiency_percentage` field of the stations matching the id (keeping
name, line, position, status and target), leaves every other table
untouched, succeeds exactly when the station exists, and changes nothing
on the not-found error. -/
theorem updateStationEfficiency_frame (s : Store) (sid : Nat) (eff : Int) :
    ((updateStationEfficiency s sid eff).resp = .ok () ↔
      ∃ st ∈ s.stations, st.id = sid) ∧
    ((updateStationEfficiency s sid eff).resp ≠ .ok () →
      (updateStationEfficiency s sid eff).resp = .error .notFound ∧
        (updateStationEfficiency s sid eff).store = s) ∧
    ((updateStationEfficiency s sid eff).resp = .ok () →
      (updateStationEfficiency s sid eff).store.stations =
        s.stations.map (fun st =>
          if st.id = sid then { st with efficiency_percentage := eff }
          else st)) ∧
    (∀ st ∈ s.stations, st.id ≠ sid →
      st ∈ (updateStationEfficiency s sid eff).store.stations) ∧
    (updateStationEfficiency s sid eff).store.departments = s.departments ∧
    (updateStationEfficiency s sid eff).store.operators = s.operators ∧
    (updateStationEfficiency s sid eff).store.shifts = s.shifts ∧
    (updateStationEfficiency s sid eff).store.shift_assignments =
      s.shift_assignments ∧
    (updateStationEfficiency s sid eff).store.attendance_logs =
      s.attendance_logs ∧
    (updateStationEfficiency s sid eff).store.station_performance =
      s.station_performance := by
  unfold updateStationEfficiency
  split
  · rename_i hex
    rw [stationExists] at hex
    refine ⟨?_, ?_, ?_, ?_, rfl, rfl, rfl, rfl, rfl, rfl⟩
    · constructor
      · intro _
        rcases List.any_eq_true.mp hex with ⟨st, hst, he⟩
        exact ⟨st, hst, by simpa using he⟩
      · intro _
        rfl
    · intro hne
      exact absurd rfl hne
    · intro _
      show s.stations.map _ = s.stations.map _
      apply List.map_congr_left
      intro st _
      by_cases hid : st.id = sid <;> simp [hid]
    · intro st hst hne
      show st ∈ s.stations.map _
      have heq : (if (st.id == sid) = true
          then { st with efficiency_percentage := eff } else st) = st := by
        simp [hne]
      exact heq ▸ List.mem_map_of_mem _ hst
  · rename_i hex
    rw [stationExists] at hex
    refine ⟨?_, ?_, ?_, ?_, rfl, rfl, rfl, rfl, rfl, rfl⟩
    · constructor
      · intro h
        simp at h
      · rintro ⟨st, hst, rfl⟩
        exact absurd (List.any_eq_true.mpr ⟨st, hst, by simp⟩) hex
    · intro _
      exact ⟨rfl, rfl⟩
    · intro h
      simp at h
    · intro st hst hne
      exact hst

/-- C10 (witness): on the base store, station 1 exists, the update
succeeds and rewrites the efficiency. -/
theorem updateStationEfficiency_frame_witness :
    (updateStationEfficiency baseStore 1 77).resp = .ok () ∧
      (updateStationEfficiency baseStore 1 77).store.stations =
        [⟨1, "BANT BASI", some 1, 1, "active", 77, 100⟩] := by
  have h := updateStationEfficiency_frame baseStore 1 77
  refine ⟨h.1.mpr ⟨⟨1, "BANT BASI", some 1, 1, "active", 0, 100⟩,
    by decide, rfl⟩, ?_⟩
  rw [h.2.2.1 (h.1.mpr ⟨⟨1, "BANT BASI", some 1, 1, "active", 0, 100⟩,
    by decide, rfl⟩)]
  decide

/-- C1 (counterexample): operator 1 of `loggedStore` has an attendance
log, and deleting the operator does not cascade: the delete fails with a
foreign-key violation and the attendance row survives, contradicting the
claimed `AttendanceLog` cascade. -/
theorem deleteOperator_cascade_counterexample :
    (deleteOperator loggedStore 1).resp = .error .fkViolation ∧
    (deleteOperator loggedStore 1).store = loggedStore ∧
    loggedStore.attendance_logs.any
      (fun l => l.operator_id == 1) = true := by
  decide

/-- C1 (amended): deleting an operator answers `NotFound` exactly when the
id is absent; when the operator is referenced by an `attendance_logs` (or
`station_performance`) row the delete fails with a foreign-key violation
and changes nothing; otherwise it succeeds, removes the operator, cascades
the deletion of exactly that operator's `shift_assignments` rows and does
not touch attendance logs. -/
theorem deleteOperator_behavior (s : Store) (oid : Nat) :
    ((deleteOperator s oid).resp = .error .notFound ↔
      operatorExists s oid = false) ∧
    (operatorExists s oid = true → operatorReferenced s oid = true →
      (deleteOperator s oid).resp = .error .fkViolation ∧
        (deleteOperator s oid).store = s) ∧
    (operatorExists s oid = true → operatorReferenced s oid = false →
      (deleteOperator s oid).resp = .ok () ∧
      (deleteOperator s oid).store.operators =
        s.operators.filter (fun o => !(o.id == oid)) ∧
      (deleteOperator s oid).store.shift_assignments =
        s.shift_assignments.filter (fun a => !(a.operator_id == oid)) ∧
      (deleteOperator s oid).store.attendance_logs = s.attendance_logs ∧
      (deleteOperator s oid).store.station_performance =
        s.station_performance ∧
      ∀ a ∈ (deleteOperator s oid).store.shift_assignments,
        a.operator_id ≠ oid) := by
  unfold deleteOperator
  split
  · rename_i hex
    split
    · rename_i href
      refine ⟨⟨?_, ?_⟩, fun _ _ => ⟨rfl, rfl⟩, ?_⟩
      · intro h
        simp at h
      · intro h
        rw [hex] at h
        simp at h
      · intro _ habs
        rw [habs] at href
        simp at href
    · rename_i href
      rw [Bool.not_eq_true] at href
      refine ⟨⟨?_, ?_⟩, ?_, fun _ _ => ⟨rfl, rfl, rfl, rfl, rfl, ?_⟩⟩
      · intro h
        simp at h
      · intro h
        rw [hex] at h
        simp at h
      · intro _ habs
        rw [habs] at href
        simp at href
      · intro a ha
        have hma := (List.mem_filter.mp ha).2
        simp at hma
        exact hma
  · rename_i hex
    rw [Bool.not_eq_true] at hex
    refine ⟨⟨fun _ => hex, fun _ => rfl⟩, ?_, ?_⟩
    · intro habs
      rw [habs] at hex
      simp at hex
    · intro habs
      rw [habs] at hex
      simp at hex

/-- C1 (witness): on a store where operator 1 has a shift assignment but
no attendance rows, the delete succeeds and removes the assignment. -/
theorem deleteOperator_behavior_witness :
    (deleteOperator assignedOnlyStore 1).resp = .ok () ∧
      (deleteOperator assignedOnlyStore 1).store.shift_assignments = [] := by
  have h := (deleteOperator_behavior assignedOnlyStore 1).2.2
    (by decide) (by decide)
  refine ⟨h.1, ?_⟩
  rw [h.2.2.1]
  decide

/-- C9: when clock-in fails with `AlreadyClockedIn` or clock-out fails
with `NoActiveClockIn`, the whole store — in particular the operator's
`status` and `last_active` — is left unchanged. -/
theorem attendance_error_frame (s : Store) (opId : Nat)
    (shiftId : Option Nat) (today now ts : Nat) :
    ((clockIn s opId shiftId today now ts).resp =
        .error .alreadyClockedIn →
      (clockIn s opId shiftId today now ts).store = s) ∧
    ((clockOut s opId today now ts).resp = .error .noActiveClockIn →
      (clockOut s opId today now ts).store = s) := by
  constructor
  · unfold clockIn
    split
    · split
      · intro _
        rfl
      · split
        · intro h
          simp at h
        · intro h
          simp at h
    · split
      · intro h
        simp at h
      · intro h
        simp at h
  · unfold clockOut
    split
    · intro _
      rfl
    · intro h
      simp at h

/-- C9 (witness): with an already-clocked-in row the clock-in fails and
the store is returned unchanged. -/
theorem attendance_error_frame_witness :
    (clockIn loggedStore 1 (some 1) 7 490 5).store = loggedStore :=
  (attendance_error_frame loggedStore 1 (some 1) 7 490 5).1 (by decide)

lemma mem_of_head?_eq {α : Type} {l : List α} {a : α}
    (h : l.head? = some a) : a ∈ l :=
  List.mem_of_mem_head? (by rw [h]; rfl)

lemma any_id_eq_true {opId : Nat} {l : List Operator}
    (h : (l.any (fun o => o.id == opId)) = true) :
    ∃ o ∈ l, o.id = opId := by
  rcases List.any_eq_true.mp h with ⟨o, ho, he⟩
  exact ⟨o, ho, by simpa using he⟩

lemma setOperatorStatus_mem (s : Store) (opId : Nat) (st : String)
    (ts : Nat) (hop : operatorExists s opId = true) :
    ∃ o ∈ (setOperatorStatus s opId st ts).operators,
      o.id = opId ∧ o.status = st ∧ o.last_active = ts := by
  rcases any_id_eq_true hop with ⟨o, ho, hid⟩
  refine ⟨{ o with status := st, last_active := ts }, ?_, hid, rfl, rfl⟩
  show _ ∈ s.operators.map _
  have heq : (fun o : Operator =>
      if o.id == opId then { o with status := st, last_active := ts }
      else o) o = { o with status := st, last_active := ts } := by
    simp [hid]
  exact heq ▸ List.mem_map_of_mem _ ho

lemma clockIn_ok_store (s : Store) (opId : Nat) (shiftId : Option Nat)
    (today now ts : Nat)
    (h : (clockIn s opId shiftId today now ts).resp = .ok ()) :
    ∃ s1 : Store, s1.operators = s.operators ∧
      (clockIn s opId shiftId today now ts).store =
        setOperatorStatus s1 opId "online" ts := by
  rcases hh : (s.attendance_logs.filter
      (matchesLogKey opId today)).head? with _ | l0
  · unfold clockIn at h ⊢
    rw [hh] at h ⊢
    dsimp only at h ⊢
    split at h
    · simp at h
    · rename_i hc
      rw [if_neg hc]
      refine ⟨_, ?_, rfl⟩
      rfl
  · unfold clockIn at h ⊢
    rw [hh] at h ⊢
    dsimp only at h ⊢
    split at h
    · simp at h
    · rename_i hc1
      split at h
      · simp at h
      · rename_i hc2
        rw [if_neg hc1, if_neg hc2]
        refine ⟨_, ?_, rfl⟩
        rfl

/-- C2: on a store satisfying the per-day uniqueness invariant, clock-in
fails with `AlreadyClockedIn` exactly when a row for `(operator, today)`
with non-null `clock_in` exists; with no row it appends exactly one
`present` row carrying the given shift; with a null-`clock_in` row it
updates that row in place without changing the number of rows; the
uniqueness invariant is preserved, and on success the operator is set
`online` with a fresh `last_active`. -/
theorem clockIn_contract (s : Store) (opId : Nat) (shiftId : Option Nat)
    (today now ts : Nat)
    (hop : operatorExists s opId = true)
    (hsh : ∀ x, shiftId = some x → shiftExists s x = true)
    (huniq : attendanceUnique s) :
    ((clockIn s opId shiftId today now ts).resp =
        .error .alreadyClockedIn ↔
      ∃ l ∈ s.attendance_logs, l.operator_id = opId ∧ l.date = today ∧
        l.clock_in.isSome = true) ∧
    ((∀ l ∈ s.attendance_logs, ¬(l.operator_id = opId ∧ l.date = today)) →
      (clockIn s opId shiftId today now ts).resp = .ok () ∧
      (clockIn s opId shiftId today now ts).store.attendance_logs =
        s.attendance_logs ++
          [⟨s.next_log_id, opId, today, some now, none, 0, "present",
            shiftId⟩]) ∧
    (∀ l0 ∈ s.attendance_logs, l0.operator_id = opId → l0.date = today →
      l0.clock_in = none →
      (clockIn s opId shiftId today now ts).resp = .ok () ∧
      (clockIn s opId shiftId today now ts).store.attendance_logs =
        s.attendance_logs.map (fun l =>
          if l.operator_id = opId ∧ l.date = today then
            { l with clock_in := some now, status := "present",
                     shift_id := shiftId }
          else l) ∧
      (clockIn s opId shiftId today now ts).store.attendance_logs.length =
        s.attendance_logs.length) ∧
    attendanceUnique (clockIn s opId shiftId today now ts).store ∧
    ((clockIn s opId shiftId today now ts).resp = .ok () →
      ∃ o ∈ (clockIn s opId shiftId today now ts).store.operators,
        o.id = opId ∧ o.status = "online" ∧ o.last_active = ts) := by
  refine ⟨?_, ?_, ?_,
    clockIn_attendanceUnique s opId shiftId today now ts huniq, ?_⟩
  · constructor
    · intro herr
      rcases hh : (s.attendance_logs.filter
          (matchesLogKey opId today)).head? with _ | l0
      · unfold clockIn at herr
        rw [hh] at herr
        dsimp only at herr
        split at herr
        · simp at herr
        · simp at herr
      · unfold clockIn at herr
        rw [hh] at herr
        dsimp only at herr
        split at herr
        · rename_i hsome
          have hl0f := mem_of_head?_eq hh
          rcases List.mem_filter.mp hl0f with ⟨hl0m, hl0k⟩
          rcases matchesLogKey_iff.mp hl0k with ⟨h1, h2⟩
          exact ⟨l0, hl0m, h1, h2, hsome⟩
        · split at herr
          · simp at herr
          · simp at herr
    · rintro ⟨l, hl, h1, h2, h3⟩
      have hlf : l ∈ s.attendance_logs.filter (matchesLogKey opId today) :=
        List.mem_filter.mpr ⟨hl, matchesLogKey_iff.mpr ⟨h1, h2⟩⟩
      rcases hh : (s.attendance_logs.filter
          (matchesLogKey opId today)).head? with _ | l0
      · rw [List.head?_eq_none_iff.mp hh] at hlf
        cases hlf
      · have hl0f := mem_of_head?_eq hh
        rcases List.mem_filter.mp hl0f with ⟨hl0m, hl0k⟩
        have hll0 : l0 = l := log_eq_of_matches huniq hl0m hl hl0k
          (matchesLogKey_iff.mpr ⟨h1, h2⟩)
        unfold clockIn
        rw [hh]
        dsimp only
        rw [if_pos (by rw [hll0]; exact h3)]
  · intro hno
    have hfilter : s.attendance_logs.filter (matchesLogKey opId today) =
        [] := by
      rw [List.filter_eq_nil_iff]
      intro l hl hm
      exact hno l hl (matchesLogKey_iff.mp hm)
    have hh : (s.attendance_logs.filter (matchesLogKey opId today)).head? =
        none := by
      rw [hfilter]
      rfl
    unfold clockIn
    rw [hh]
    dsimp only
    split
    · rename_i hc
      rw [hop] at hc
      simp only [Bool.not_true, Bool.false_or] at hc
      rcases hx : shiftId with _ | x
      · rw [hx] at hc
        exact Bool.noConfusion hc
      · rw [hx] at hc
        have hc2 : (!shiftExists s x) = true := hc
        rw [hsh x hx] at hc2
        exact Bool.noConfusion hc2
    · exact ⟨rfl, rfl⟩
  · intro l0 hl0 h1 h2 h3
    have hm : matchesLogKey opId today l0 = true :=
      matchesLogKey_iff.mpr ⟨h1, h2⟩
    have hfilter : s.attendance_logs.filter (matchesLogKey opId today) =
        [l0] := filter_matches_eq_singleton huniq hl0 hm
    have hh : (s.attendance_logs.filter (matchesLogKey opId today)).head? =
        some l0 := by
      rw [hfilter]
      rfl
    unfold clockIn
    rw [hh]
    dsimp only
    rw [if_neg (by rw [h3]; simp)]
    split
    · rename_i hc
      rcases hx : shiftId with _ | x
      · rw [hx] at hc
        exact Bool.noConfusion hc
      · rw [hx] at hc
        have hc2 : (!shiftExists s x) = true := hc
        rw [hsh x hx] at hc2
        exact Bool.noConfusion hc2
    · refine ⟨rfl, ?_, by simp [setOperatorStatus]⟩
      show s.attendance_logs.map _ = s.attendance_logs.map _
      apply List.map_congr_left
      intro l _
      by_cases hc : l.operator_id = opId ∧ l.date = today
      · rw [if_pos (matchesLogKey_iff.mpr hc), if_pos hc]
      · rw [if_neg (fun hb => hc (matchesLogKey_iff.mp hb)), if_neg hc]
  · intro hok
    rcases clockIn_ok_store s opId shiftId today now ts hok with
      ⟨s1, hops, hst⟩
    rw [hst]
    apply setOperatorStatus_mem
    show (s1.operators.any _) = true
    rw [hops]
    exact hop

/-- C2 (witness): on a store with a pre-seeded absent row for operator 1,
clock-in succeeds and updates that row in place. -/
theorem clockIn_contract_witness :
    (clockIn seededAbsentStore 1 (some 1) 7 480 9).resp = .ok () ∧
      (clockIn seededAbsentStore 1 (some 1) 7 480 9).store.attendance_logs.length =
        seededAbsentStore.attendance_logs.length := by
  have h := (clockIn_contract seededAbsentStore 1 (some 1) 7 480 9
    (by decide) (fun x hx => by cases hx; decide) (by decide)).2.2.1
    ⟨1, 1, 7, none, none, 0, "absent", none⟩ (by decide) rfl rfl rfl
  exact ⟨h.1, h.2.2⟩

lemma clockOut_resp_of_no_active (s' : Store) (opId today now ts : Nat)
    (h : ∀ l ∈ s'.attendance_logs, matchesLogKey opId today l = true →
      l.clock_out.isNone = false) :
    (clockOut s' opId today now ts).resp = .error .noActiveClockIn := by
  have hfilter : s'.attendance_logs.filter (fun l =>
      matchesLogKey opId today l && l.clock_in.isSome &&
        l.clock_out.isNone) = [] := by
    rw [List.filter_eq_nil_iff]
    intro l hl hp
    rw [Bool.and_eq_true, Bool.and_eq_true] at hp
    rcases hp with ⟨⟨hm, _⟩, hnone⟩
    rw [h l hl hm] at hnone
    cases hnone
  unfold clockOut
  rw [show (s'.attendance_logs.filter (fun l =>
      matchesLogKey opId today l && l.clock_in.isSome &&
        l.clock_out.isNone)).head? = none from by rw [hfilter]; rfl]

/-- C3: clock-out succeeds exactly when a row for `(operator, today)` with
non-null `clock_in` and null `clock_out` exists; any other state (no row,
not yet clocked in, already clocked out) yields `NoActiveClockIn` and
leaves the store unchanged; in particular a second clock-out right after
a successful one fails with `NoActiveClockIn`. -/
theorem clockOut_contract (s : Store) (opId today now ts now2 ts2 : Nat) :
    ((clockOut s opId today now ts).resp = .ok () ↔
      ∃ l ∈ s.attendance_logs, l.operator_id = opId ∧ l.date = today ∧
        l.clock_in.isSome = true ∧ l.clock_out = none) ∧
    ((clockOut s opId today now ts).resp ≠ .ok () →
      (clockOut s opId today now ts).resp = .error .noActiveClockIn ∧
      (clockOut s opId today now ts).store = s) ∧
    (∀ s2, clockOut s opId today now ts = ⟨.ok (), s2⟩ →
      (clockOut s2 opId today now2 ts2).resp =
        .error .noActiveClockIn) := by
  refine ⟨⟨?_, ?_⟩, ?_, ?_⟩
  · intro hok
    rcases hh : (s.attendance_logs.filter (fun l =>
        matchesLogKey opId today l && l.clock_in.isSome &&
          l.clock_out.isNone)).head? with _ | l0
    · unfold clockOut at hok
      rw [hh] at hok
      simp at hok
    · have hl0f := mem_of_head?_eq hh
      rcases List.mem_filter.mp hl0f with ⟨hl0m, hp⟩
      rw [Bool.and_eq_true, Bool.and_eq_true] at hp
      rcases hp with ⟨⟨hm, hsome⟩, hnone⟩
      rcases matchesLogKey_iff.mp hm with ⟨h1, h2⟩
      exact ⟨l0, hl0m, h1, h2, hsome,
        Option.isNone_iff_eq_none.mp hnone⟩
  · rintro ⟨l, hl, h1, h2, h3, h4⟩
    have hlf : l ∈ s.attendance_logs.filter (fun l =>
        matchesLogKey opId today l && l.clock_in.isSome &&
          l.clock_out.isNone) := by
      refine List.mem_filter.mpr ⟨hl, ?_⟩
      rw [Bool.and_eq_true, Bool.and_eq_true]
      exact ⟨⟨matchesLogKey_iff.mpr ⟨h1, h2⟩, h3⟩, by rw [h4]; rfl⟩
    rcases hh : (s.attendance_logs.filter (fun l =>
        matchesLogKey opId today l && l.clock_in.isSome &&
          l.clock_out.isNone)).head? with _ | l0
    · rw [List.head?_eq_none_iff.mp hh] at hlf
      cases hlf
    · unfold clockOut
      rw [hh]
  · intro hne
    rcases hh : (s.attendance_logs.filter (fun l =>
        matchesLogKey opId today l && l.clock_in.isSome &&
          l.clock_out.isNone)).head? with _ | l0
    · unfold clockOut
      rw [hh]
      exact ⟨rfl, rfl⟩
    · exfalso
      apply hne
      unfold clockOut
      rw [hh]
  · intro s2 heq
    rcases hh : (s.attendance_logs.filter (fun l =>
        matchesLogKey opId today l && l.clock_in.isSome &&
          l.clock_out.isNone)).head? with _ | l0
    · unfold clockOut at heq
      rw [hh] at heq
      simp at heq
    · unfold clockOut at heq
      rw [hh] at heq
      dsimp only at heq
      have hs2 := congrArg OpResult.store heq
      dsimp only at hs2
      apply clockOut_resp_of_no_active
      intro l' hl' hm'
      rw [← hs2] at hl'
      rcases List.mem_map.mp hl' with ⟨l, hl, rfl⟩
      by_cases hml : matchesLogKey opId today l = true
      · rw [if_pos hml]
        rfl
      · rw [if_neg hml] at hm' ⊢
        exact absurd hm' hml

/-- C3 (witness): with an open attendance row, clock-out succeeds, and on
the store with only a pre-seeded absent row (no clock-in yet) it fails
with `NoActiveClockIn`. -/
theorem clockOut_contract_witness :
    (clockOut loggedStore 1 7 510 9).resp = .ok () ∧
      (clockOut seededAbsentStore 1 7 510 9).resp =
        .error .noActiveClockIn ∧
      (clockOut seededAbsentStore 1 7 510 9).store = seededAbsentStore := by
  refine ⟨(clockOut_contract loggedStore 1 7 510 9 0 0).1.mpr
    ⟨⟨1, 1, 7, some 480, none, 0, "present", some 1⟩, by decide, rfl, rfl,
      rfl, rfl⟩, ?_⟩
  have h := (clockOut_contract seededAbsentStore 1 7 510 9 0 0).2.1 ?hne
  · exact h
  case hne =>
    intro hok
    rcases (clockOut_contract seededAbsentStore 1 7 510 9 0 0).1.mp hok
      with ⟨l, hl, _, _, h3, _⟩
    have : l = ⟨1, 1, 7, none, none, 0, "absent", none⟩ := by
      rcases List.mem_singleton.mp hl with rfl
      rfl
    rw [this] at h3
    cases h3

lemma totalHoursHundredths_nonneg {a b : Nat} (h : a ≤ b) :
    0 ≤ totalHoursHundredths a b := by
  unfold totalHoursHundredths jsRound
  rw [Int.le_floor]
  have hab : (a : Rat) ≤ (b : Rat) := by exact_mod_cast h
  have h0 : (0 : Rat) ≤ (b : Rat) - (a : Rat) := by linarith
  have h1 : (0 : Rat) ≤ ((b : Rat) - (a : Rat)) * 60000 :=
    mul_nonneg h0 (by norm_num)
  have h2 : (0 : Rat) ≤ ((b : Rat) - (a : Rat)) * 60000 /
      (1000 * 60 * 60) := div_nonneg h1 (by norm_num)
  have h3 : (0 : Rat) ≤ ((b : Rat) - (a : Rat)) * 60000 /
      (1000 * 60 * 60) * 100 := mul_nonneg h2 (by norm_num)
  push_cast
  linarith

lemma clockIn_insert_eq (s : Store) (opId : Nat) (shiftId : Option Nat)
    (today now ts : Nat)
    (hop : operatorExists s opId = true)
    (hsh : ∀ x, shiftId = some x → shiftExists s x = true)
    (hh : (s.attendance_logs.filter (matchesLogKey opId today)).head? =
      none) :
    clockIn s opId shiftId today now ts = ⟨.ok (), setOperatorStatus
      { s with
        attendance_logs := s.attendance_logs ++
          [⟨s.next_log_id, opId, today, some now, none, 0, "present", shiftId⟩]
        next_log_id := s.next_log_id + 1 } opId "online" ts⟩ := by
  unfold clockIn
  rw [hh]
  dsimp only
  split
  · rename_i hc
    rw [hop] at hc
    simp only [Bool.not_true, Bool.false_or] at hc
    rcases hx : shiftId with _ | x
    · rw [hx] at hc
      exact Bool.noConfusion hc
    · rw [hx] at hc
      have hc2 : (!shiftExists s x) = true := hc
      rw [hsh x hx] at hc2
      exact Bool.noConfusion hc2
  · rfl

lemma clockIn_update_eq (s : Store) (opId : Nat) (shiftId : Option Nat)
    (today now ts : Nat)
    (hsh : ∀ x, shiftId = some x → shiftExists s x = true)
    (l0 : AttendanceLog)
    (hh : (s.attendance_logs.filter (matchesLogKey opId today)).head? =
      some l0)
    (hcin : l0.clock_in = none) :
    clockIn s opId shiftId today now ts = ⟨.ok (), setOperatorStatus
      { s with attendance_logs := s.attendance_logs.map (fun l =>
          if matchesLogKey opId today l then
            { l with clock_in := some now, status := "present",
                     shift_id := shiftId }
          else l) } opId "online" ts⟩ := by
  unfold clockIn
  rw [hh]
  dsimp only
  rw [if_neg (by rw [hcin]; simp)]
  split
  · rename_i hc
    rcases hx : shiftId with _ | x
    · rw [hx] at hc
      exact Bool.noConfusion hc
    · rw [hx] at hc
      have hc2 : (!shiftExists s x) = true := hc
      rw [hsh x hx] at hc2
      exact Bool.noConfusion hc2
  · rfl

lemma clockOut_eq_of_head (s' : Store) (opId today now ts : Nat)
    (l0 : AttendanceLog)
    (hh : (s'.attendance_logs.filter (fun l =>
      matchesLogKey opId today l && l.clock_in.isSome &&
        l.clock_out.isNone)).head? = some l0) :
    clockOut s' opId today now ts = ⟨.ok (), setOperatorStatus
      { s' with
        attendance_logs := s'.attendance_logs.map (fun l =>
          if matchesLogKey opId today l then
            { l with
              clock_out := some now
              total_hours :=
                totalHoursHundredths (l0.clock_in.getD 0) now }
          else l) } opId "offline" ts⟩ := by
  unfold clockOut
  rw [hh]

/-- C4: from a day with no clock-in yet (no row, or a pre-seeded row with
null clock-in and clock-out), clock-in followed by clock-out on the same
day both succeed and leave exactly one attendance row for the operator and
date; that row records the clock-in and clock-out times and a
`total_hours` equal to the elapsed time in hours rounded to two decimals
(stored in hundredths), which is non-negative. -/
theorem clockIn_clockOut_round_trip (s : Store) (opId : Nat)
    (shiftId : Option Nat) (today tIn tOut ts1 ts2 : Nat)
    (hop : operatorExists s opId = true)
    (hsh : ∀ x, shiftId = some x → shiftExists s x = true)
    (huniq : attendanceUnique s)
    (hfresh : ∀ l ∈ s.attendance_logs, l.operator_id = opId →
      l.date = today → l.clock_in = none ∧ l.clock_out = none)
    (hle : tIn ≤ tOut) :
    ∃ s1 s2 : Store,
      clockIn s opId shiftId today tIn ts1 = ⟨.ok (), s1⟩ ∧
      clockOut s1 opId today tOut ts2 = ⟨.ok (), s2⟩ ∧
      (s2.attendance_logs.filter (matchesLogKey opId today)).length = 1 ∧
      ∀ l ∈ s2.attendance_logs, l.operator_id = opId → l.date = today →
        l.clock_in = some tIn ∧ l.clock_out = some tOut ∧
        l.total_hours = totalHoursHundredths tIn tOut ∧
        0 ≤ l.total_hours := by
  rcases hh : (s.attendance_logs.filter (matchesLogKey opId today)).head?
    with _ | l0
  · -- no row yet: insert then close it
    have hfnil : s.attendance_logs.filter (matchesLogKey opId today) =
        [] := List.head?_eq_none_iff.mp hh
    have hnomatch : ∀ l ∈ s.attendance_logs,
        matchesLogKey opId today l = false := by
      intro l hl
      cases hbv : matchesLogKey opId today l with
      | false => rfl
      | true =>
        exfalso
        have hmem : l ∈ s.attendance_logs.filter
            (matchesLogKey opId today) := List.mem_filter.mpr ⟨hl, hbv⟩
        rw [hfnil] at hmem
        cases hmem
    have hci := clockIn_insert_eq s opId shiftId today tIn ts1 hop hsh hh
    obtain ⟨S1, hS1eq, hS1logs⟩ : ∃ S1,
        clockIn s opId shiftId today tIn ts1 = ⟨.ok (), S1⟩ ∧
        S1.attendance_logs = s.attendance_logs ++
          [⟨s.next_log_id, opId, today, some tIn, none, 0, "present",
            shiftId⟩] := ⟨_, hci, rfl⟩
    have hfl : S1.attendance_logs.filter (fun l =>
        matchesLogKey opId today l && l.clock_in.isSome &&
          l.clock_out.isNone) =
        [⟨s.next_log_id, opId, today, some tIn, none, 0, "present",
          shiftId⟩] := by
      rw [hS1logs, List.filter_append]
      have h1 : s.attendance_logs.filter (fun l =>
          matchesLogKey opId today l && l.clock_in.isSome &&
            l.clock_out.isNone) = [] := by
        rw [List.filter_eq_nil_iff]
        intro l hl hp
        rw [Bool.and_eq_true, Bool.and_eq_true] at hp
        rw [hnomatch l hl] at hp
        simp at hp
      rw [h1]
      simp [matchesLogKey]
    have hh2 : (S1.attendance_logs.filter (fun l =>
        matchesLogKey opId today l && l.clock_in.isSome &&
          l.clock_out.isNone)).head? =
        some ⟨s.next_log_id, opId, today, some tIn, none, 0, "present",
          shiftId⟩ := by
      rw [hfl]
      rfl
    have hco := clockOut_eq_of_head S1 opId today tOut ts2 _ hh2
    obtain ⟨S2, hS2eq, hS2logs⟩ : ∃ S2,
        clockOut S1 opId today tOut ts2 = ⟨.ok (), S2⟩ ∧
        S2.attendance_logs = S1.attendance_logs.map (fun l =>
          if matchesLogKey opId today l then
            { l with
              clock_out := some tOut
              total_hours := totalHoursHundredths tIn tOut }
          else l) := ⟨_, hco, rfl⟩
    have hGid : ∀ l ∈ s.attendance_logs, (fun l =>
        if matchesLogKey opId today l then
          { l with
            clock_out := some tOut
            total_hours := totalHoursHundredths tIn tOut }
        else l) l = l := by
      intro l hl
      apply if_neg
      rw [hnomatch l hl]
      simp
    refine ⟨S1, S2, hS1eq, hS2eq, ?_, ?_⟩
    · rw [hS2logs, hS1logs, List.map_append, map_id_of hGid,
        List.filter_append, hfnil]
      simp [matchesLogKey]
    · intro l hl h1 h2
      rw [hS2logs, hS1logs, List.map_append, map_id_of hGid] at hl
      rcases List.mem_append.mp hl with hl | hl
      · exfalso
        have := matchesLogKey_iff.mpr ⟨h1, h2⟩
        rw [hnomatch l hl] at this
        cases this
      · simp only [List.map_cons, List.map_nil,
          List.mem_singleton] at hl
        subst hl
        rw [if_pos (by simp [matchesLogKey])]
        exact ⟨rfl, rfl, rfl, totalHoursHundredths_nonneg hle⟩
  · -- a pre-seeded row with null clock-in: update it, then close it
    have hl0f := mem_of_head?_eq hh
    rcases List.mem_filter.mp hl0f with ⟨hl0m, hm⟩
    rcases matchesLogKey_iff.mp hm with ⟨h1, h2⟩
    rcases hfresh l0 hl0m h1 h2 with ⟨hcin, hcout⟩
    have hsingle : s.attendance_logs.filter (matchesLogKey opId today) =
        [l0] := filter_matches_eq_singleton huniq hl0m hm
    have hci := clockIn_update_eq s opId shiftId today tIn ts1 hsh l0 hh
      hcin
    obtain ⟨S1, hS1eq, hS1logs⟩ : ∃ S1,
        clockIn s opId shiftId today tIn ts1 = ⟨.ok (), S1⟩ ∧
        S1.attendance_logs = s.attendance_logs.map (fun l =>
          if matchesLogKey opId today l then
            { l with clock_in := some tIn, status := "present",
                     shift_id := shiftId }
          else l) := ⟨_, hci, rfl⟩
    have hFl0 : (if matchesLogKey opId today l0 then
          { l0 with clock_in := some tIn, status := "present",
                    shift_id := shiftId }
        else l0) =
        { l0 with clock_in := some tIn, status := "present",
                  shift_id := shiftId } := if_pos hm
    have hfl : S1.attendance_logs.filter (fun l =>
        matchesLogKey opId today l && l.clock_in.isSome &&
          l.clock_out.isNone) =
        [{ l0 with clock_in := some tIn, status := "present",
                   shift_id := shiftId }] := by
      rw [hS1logs, List.filter_map]
      have hcong : s.attendance_logs.filter ((fun l =>
          matchesLogKey opId today l && l.clock_in.isSome &&
            l.clock_out.isNone) ∘ (fun l =>
          if matchesLogKey opId today l then
            { l with clock_in := some tIn, status := "present",
                     shift_id := shiftId }
          else l)) =
          s.attendance_logs.filter (matchesLogKey opId today) := by
        apply List.filter_congr
        intro l hl
        simp only [Function.comp_apply]
        by_cases hml : matchesLogKey opId today l = true
        · have hleq : l = l0 := by
            have hmem : l ∈ s.attendance_logs.filter
                (matchesLogKey opId today) := List.mem_filter.mpr ⟨hl, hml⟩
            rw [hsingle] at hmem
            exact List.mem_singleton.mp hmem
          subst hleq
          simp [matchesLogKey, hml, h1, h2, hcout]
        · have hmf : matchesLogKey opId today l = false := by
            cases hb : matchesLogKey opId today l with
            | false => rfl
            | true => exact absurd hb hml
          rw [if_neg hml, hmf]
          simp [hmf]
      rw [hcong, hsingle]
      simp only [List.map_cons, List.map_nil]
      rw [hFl0]
    have hh2 : (S1.attendance_logs.filter (fun l =>
        matchesLogKey opId today l && l.clock_in.isSome &&
          l.clock_out.isNone)).head? =
        some { l0 with clock_in := some tIn, status := "present",
                       shift_id := shiftId } := by
      rw [hfl]
      rfl
    have hco := clockOut_eq_of_head S1 opId today tOut ts2 _ hh2
    obtain ⟨S2, hS2eq, hS2logs⟩ : ∃ S2,
        clockOut S1 opId today tOut ts2 = ⟨.ok (), S2⟩ ∧
        S2.attendance_logs = S1.attendance_logs.map (fun l =>
          if matchesLogKey opId today l then
            { l with
              clock_out := some tOut
              total_hours := totalHoursHundredths tIn tOut }
          else l) := ⟨_, hco, rfl⟩
    have hkeyG : ∀ l : AttendanceLog, matchesLogKey opId today
        (if matchesLogKey opId today l then
          { l with
            clock_out := some tOut
            total_hours := totalHoursHundredths tIn tOut }
        else l) = matchesLogKey opId today l := by
      intro l
      by_cases hml : matchesLogKey opId today l = true
      · rcases matchesLogKey_iff.mp hml with ⟨hp1, hp2⟩
        simp [matchesLogKey, hp1, hp2]
      · simp [hml]
    have hkeyF : ∀ l : AttendanceLog, matchesLogKey opId today
        (if matchesLogKey opId today l then
          { l with clock_in := some tIn, status := "present",
                   shift_id := shiftId }
        else l) = matchesLogKey opId today l := by
      intro l
      by_cases hml : matchesLogKey opId today l = true
      · rcases matchesLogKey_iff.mp hml with ⟨hp1, hp2⟩
        simp [matchesLogKey, hp1, hp2]
      · simp [hml]
    have hfl2 : S2.attendance_logs.filter (matchesLogKey opId today) =
        [{ l0 with
            clock_in := some tIn
            clock_out := some tOut
            total_hours := totalHoursHundredths tIn tOut
            status := "present"
            shift_id := shiftId }] := by
      rw [hS2logs, hS1logs, List.map_map, List.filter_map]
      have hcong2 : s.attendance_logs.filter
          ((matchesLogKey opId today) ∘ ((fun l =>
            if matchesLogKey opId today l then
              { l with
                clock_out := some tOut
                total_hours := totalHoursHundredths tIn tOut }
            else l) ∘ (fun l =>
            if matchesLogKey opId today l then
              { l with clock_in := some tIn, status := "present",
                       shift_id := shiftId }
            else l))) =
          s.attendance_logs.filter (matchesLogKey opId today) := by
        apply List.filter_congr
        intro l hl
        simp only [Function.comp_apply]
        rw [hkeyG, hkeyF]
      rw [hcong2, hsingle]
      simp only [List.map_cons, List.map_nil, Function.comp_apply]
      rw [hFl0]
      rw [if_pos (by simp [matchesLogKey, h1, h2])]
    refine ⟨S1, S2, hS1eq, hS2eq, ?_, ?_⟩
    · rw [hfl2]
      rfl
    · intro l hl hop1 hop2
      have hmem : l ∈ S2.attendance_logs.filter
          (matchesLogKey opId today) :=
        List.mem_filter.mpr ⟨hl, matchesLogKey_iff.mpr ⟨hop1, hop2⟩⟩
      rw [hfl2] at hmem
      rcases List.mem_singleton.mp hmem with rfl
      exact ⟨rfl, rfl, rfl, totalHoursHundredths_nonneg hle⟩

/-- C4 (witness): on the base store (no attendance rows), clocking
operator 1 in at 08:00 and out at 08:30 yields one row with
`total_hours` of 0.50 hours. -/
theorem clockIn_clockOut_round_trip_witness :
    ∃ s1 s2 : Store,
      clockIn baseStore 1 (some 1) 7 480 11 = ⟨.ok (), s1⟩ ∧
      clockOut s1 1 7 510 12 = ⟨.ok (), s2⟩ ∧
      (s2.attendance_logs.filter (matchesLogKey 1 7)).length = 1 ∧
      ∀ l ∈ s2.attendance_logs, l.operator_id = 1 → l.date = 7 →
        l.clock_in = some 480 ∧ l.clock_out = some 510 ∧
        l.total_hours = totalHoursHundredths 480 510 ∧
        0 ≤ l.total_hours :=
  clockIn_clockOut_round_trip baseStore 1 (some 1) 7 480 510 11 12
    (by decide) (fun x hx => by cases hx; decide) (by decide)
    (fun l hl => by cases hl) (by norm_num)

lemma assignOperator_update_eq (s : Store) (shiftId opId : Nat)
    (stationId : Option Nat) (assignedDate : Option Nat) (today : Nat)
    (hsz : shiftId ≠ 0) (hoz : opId ≠ 0)
    (hshx : shiftExists s shiftId = true)
    (hopx : operatorExists s opId = true)
    (hstx : ∀ x, stationId = some x → stationExists s x = true)
    (hany : s.shift_assignments.any
      (matchesAssignKey shiftId opId (assignedDate.getD today)) = true) :
    assignOperator s shiftId opId stationId assignedDate today =
      ⟨.ok (), { s with
        shift_assignments := s.shift_assignments.map (fun a =>
          if matchesAssignKey shiftId opId (assignedDate.getD today) a then
            { a with station_id := stationId }
          else a) }⟩ := by
  have hval : (shiftId == 0 || opId == 0) = false := by
    simp [hsz, hoz]
  unfold assignOperator
  split
  · rename_i hc
    rw [hval] at hc
    exact Bool.noConfusion hc
  · split
    · rename_i hc
      rw [hshx, hopx] at hc
      simp only [Bool.not_true, Bool.false_or] at hc
      rcases hx : stationId with _ | x
      · rw [hx] at hc
        exact Bool.noConfusion hc
      · rw [hx] at hc
        have hc2 : (!stationExists s x) = true := hc
        rw [hstx x hx] at hc2
        exact Bool.noConfusion hc2
    · dsimp only
      split
      · rfl
      · rename_i h2
        exact absurd hany h2

lemma assignOperator_insert_eq (s : Store) (shiftId opId : Nat)
    (stationId : Option Nat) (assignedDate : Option Nat) (today : Nat)
    (hsz : shiftId ≠ 0) (hoz : opId ≠ 0)
    (hshx : shiftExists s shiftId = true)
    (hopx : operatorExists s opId = true)
    (hstx : ∀ x, stationId = some x → stationExists s x = true)
    (hany : s.shift_assignments.any
      (matchesAssignKey shiftId opId (assignedDate.getD today)) = false) :
    assignOperator s shiftId opId stationId assignedDate today =
      ⟨.ok (), { s with
        shift_assignments := s.shift_assignments ++
          [⟨s.next_assignment_id, shiftId, opId, assignedDate.getD today,
            stationId⟩]
        next_assignment_id := s.next_assignment_id + 1 }⟩ := by
  have hval : (shiftId == 0 || opId == 0) = false := by
    simp [hsz, hoz]
  unfold assignOperator
  split
  · rename_i hc
    rw [hval] at hc
    exact Bool.noConfusion hc
  · split
    · rename_i hc
      rw [hshx, hopx] at hc
      simp only [Bool.not_true, Bool.false_or] at hc
      rcases hx : stationId with _ | x
      · rw [hx] at hc
        exact Bool.noConfusion hc
      · rw [hx] at hc
        have hc2 : (!stationExists s x) = true := hc
        rw [hstx x hx] at hc2
        exact Bool.noConfusion hc2
    · dsimp only
      split
      · rename_i h2
        rw [hany] at h2
        exact Bool.noConfusion h2
      · rfl

/-- C5: the assignment upsert keeps the `(shift, operator, date)`
uniqueness invariant across any sequence of calls; a call whose key
already has a row updates that row's `station_id` in place (same number of
rows), a call with a fresh key appends exactly one row whose date is the
given `assigned_date`, defaulting to today when omitted. -/
theorem assignOperator_contract (s : Store) (shiftId opId : Nat)
    (stationId : Option Nat) (assignedDate : Option Nat) (today : Nat)
    (hsz : shiftId ≠ 0) (hoz : opId ≠ 0)
    (hshx : shiftExists s shiftId = true)
    (hopx : operatorExists s opId = true)
    (hstx : ∀ x, stationId = some x → stationExists s x = true)
    (huniq : assignmentUnique s) :
    (s.shift_assignments.any
        (matchesAssignKey shiftId opId (assignedDate.getD today)) = true →
      (assignOperator s shiftId opId stationId assignedDate today).resp =
        .ok () ∧
      (assignOperator s shiftId opId stationId assignedDate
          today).store.shift_assignments =
        s.shift_assignments.map (fun a =>
          if matchesAssignKey shiftId opId (assignedDate.getD today) a then
            { a with station_id := stationId }
          else a) ∧
      (assignOperator s shiftId opId stationId assignedDate
          today).store.shift_assignments.length =
        s.shift_assignments.length) ∧
    (s.shift_assignments.any
        (matchesAssignKey shiftId opId (assignedDate.getD today)) =
          false →
      (assignOperator s shiftId opId stationId assignedDate today).resp =
        .ok () ∧
      (assignOperator s shiftId opId stationId assignedDate
          today).store.shift_assignments =
        s.shift_assignments ++
          [⟨s.next_assignment_id, shiftId, opId, assignedDate.getD today,
            stationId⟩]) ∧
    (assignedDate = none → assignedDate.getD today = today) ∧
    assignmentUnique
      (assignOperator s shiftId opId stationId assignedDate today).store ∧
    (∀ cs : List AssignCall, assignmentUnique (applyAssigns s cs)) := by
  refine ⟨?_, ?_, ?_,
    assignOperator_assignmentUnique s shiftId opId stationId assignedDate
      today huniq,
    fun cs => applyAssigns_assignmentUnique cs s huniq⟩
  · intro hany
    rw [assignOperator_update_eq s shiftId opId stationId assignedDate
      today hsz hoz hshx hopx hstx hany]
    exact ⟨rfl, rfl, by simp⟩
  · intro hany
    rw [assignOperator_insert_eq s shiftId opId stationId assignedDate
      today hsz hoz hshx hopx hstx hany]
    exact ⟨rfl, rfl⟩
  · intro h
    rw [h]
    rfl

/-- C5 (witness): on the base store, assigning operator 1 to shift 1 with
no explicit date appends one row dated today; the uniqueness invariant
holds afterwards. -/
theorem assignOperator_contract_witness :
    (assignOperator baseStore 1 1 (some 1) none 7).resp = .ok () ∧
      (assignOperator baseStore 1 1 (some 1) none
        7).store.shift_assignments = [⟨1, 1, 1, 7, some 1⟩] ∧
      assignmentUnique (assignOperator baseStore 1 1 (some 1) none
        7).store := by
  have h := assignOperator_contract baseStore 1 1 (some 1) none 7
    (by decide) (by decide) (by decide) (by decide)
    (fun x hx => by cases hx; decide) (by decide)
  refine ⟨(h.2.1 (by decide)).1, ?_, h.2.2.2.1⟩
  rw [(h.2.1 (by decide)).2]
  decide

/-- C6 (counterexample): two rows with names and emails present (so zero
blank rows) but a shared employee id: the second row's insert violates the
`employee_id` unique constraint, so only one operator is imported and one
error message is returned, not N−K = 2 and 0. -/
theorem importOperators_counts_counterexample :
    (empClashRows.filter rowBlank).length = 0 ∧
    empClashRows.length = 2 ∧
    (importOperators baseStore empClashRows 0).imported = 1 ∧
    (importOperators baseStore empClashRows 0).errors.length = 1 := by
  decide

/-- C6 (amended): every row is processed (a failing row never aborts the
batch): imported plus error count always equals N; and when no row fails
the `employee_id` unique constraint (blank-row skips are the only
failures), the errors are exactly the skip messages of the K blank rows
and exactly N−K operators are created or updated. -/
theorem importOperators_counts (s : Store) (rows : List ImportRow)
    (t : Nat) :
    (importOperators s rows t).imported +
      (importOperators s rows t).errors.length = rows.length ∧
    (cleanRun s rows t = true →
      (importOperators s rows t).errors =
        (rows.filter rowBlank).map
          ImportError.skippedMissingNameOrEmail ∧
      (importOperators s rows t).imported =
        rows.length - (rows.filter rowBlank).length) := by
  induction rows generalizing s with
  | nil => exact ⟨rfl, fun _ => ⟨rfl, rfl⟩⟩
  | cons r rs ih =>
    rcases hp : processRow s r t with ⟨e, s1⟩
    unfold importOperators cleanRun
    rw [hp]
    cases e with
    | none =>
      dsimp only
      refine ⟨?_, ?_⟩
      · have h1 := (ih s1).1
        simp only [List.length_cons]
        omega
      · intro hcl
        have hb : rowBlank r = false := by
          cases hbv : rowBlank r with
          | false => rfl
          | true =>
            exfalso
            unfold processRow at hp
            rw [if_pos hbv] at hp
            simp at hp
        rw [List.filter_cons_of_neg
          (fun hx => Bool.noConfusion (hb ▸ hx))]
        rcases (ih s1).2 hcl with ⟨he, hi⟩
        refine ⟨he, ?_⟩
        have hk := List.length_filter_le rowBlank rs
        simp only [List.length_cons]
        omega
    | some e2 =>
      dsimp only
      refine ⟨?_, ?_⟩
      · have h1 := (ih s1).1
        simp only [List.length_cons]
        omega
      · cases e2 with
        | rowFailed r2 =>
          intro hcl
          exact Bool.noConfusion hcl
        | skippedMissingNameOrEmail r2 =>
          intro hcl
          have hb : rowBlank r = true := by
            cases hbv : rowBlank r with
            | true => rfl
            | false =>
              exfalso
              unfold processRow at hp
              rw [if_neg (fun hx => Bool.noConfusion (hbv ▸ hx))] at hp
              rcases hu : upsertOperator s (rowName r) (rowEmail r)
                  (rowEmp r) (rowDept s.departments r) (rowSkill r) t
                with s2 | err
              · rw [hu] at hp
                simp at hp
              · rw [hu] at hp
                simp at hp
          have hps : processRow s r t =
              (some (.skippedMissingNameOrEmail r), s) := by
            unfold processRow
            rw [if_pos hb]
          rw [hp] at hps
          simp only [Prod.mk.injEq, Option.some.injEq,
            ImportError.skippedMissingNameOrEmail.injEq] at hps
          rcases hps with ⟨hr2, hs1⟩
          subst hr2
          subst hs1
          rw [List.filter_cons_of_pos hb]
          rcases (ih s1).2 hcl with ⟨he, hi⟩
          refine ⟨?_, ?_⟩
          · rw [List.map_cons, he]
          · have hk := List.length_filter_le rowBlank rs
            simp only [List.length_cons, he, hi]
            omega

/-- C6 (witness): importing one well-formed row and one blank-name row
into the base store imports exactly one operator and reports exactly one
skip error. -/
theorem importOperators_counts_witness :
    (importOperators baseStore mixedRows 0).imported = 1 ∧
      (importOperators baseStore mixedRows 0).errors.length = 1 := by
  have h := (importOperators_counts baseStore mixedRows 0).2 (by decide)
  refine ⟨?_, ?_⟩
  · rw [h.2]
    decide
  · rw [h.1]
    decide

lemma find?_congr_fun {α : Type} (p q : α → Bool) (h : ∀ a, p a = q a) :
    ∀ l : List α, l.find? p = l.find? q
  | [] => rfl
  | a :: l => by
    rw [List.find?_cons, List.find?_cons, h a, find?_congr_fun p q h l]

lemma likeMatches_noSpecials : ∀ (ps ss : List Char),
    (∀ c ∈ ps, c ≠ '%' ∧ c ≠ '_' ∧ c ≠ '\\') →
    likeMatches ps ss = (ps.map Char.toLower == ss.map Char.toLower)
  | [], ss, _ => by cases ss <;> rfl
  | p :: ps, ss, h => by
    have hp := h p (List.mem_cons_self p ps)
    cases ss with
    | nil =>
      rw [likeMatches.eq_2, if_neg hp.1]
      rfl
    | cons c ss =>
      cases ps with
      | nil =>
        rw [likeMatches.eq_3, if_neg hp.1, if_neg hp.2.1, if_neg hp.2.2]
        rw [likeMatches_noSpecials [] ss (by intro x hx; cases hx)]
        rfl
      | cons p2 ps2 =>
        rw [likeMatches.eq_4, if_neg hp.1, if_neg hp.2.1, if_neg hp.2.2]
        rw [likeMatches_noSpecials (p2 :: ps2) ss
          (fun x hx => h x (List.mem_cons_of_mem p hx))]
        rfl

lemma noLikeSpecials_spec {p : String} (h : noLikeSpecials p = true) :
    ∀ c ∈ p.data, c ≠ '%' ∧ c ≠ '_' ∧ c ≠ '\\' := by
  intro c hc
  have hx := List.all_eq_true.mp h c hc
  simp at hx
  exact ⟨hx.1.1, hx.1.2, hx.2⟩

/-- C7 (counterexample): the pattern `Pro%` is not a case-insensitive
exact match of `Production`, so the claim would leave the department null;
the code's `ILIKE` treats `%` as a wildcard and resolves it to department
1, and the imported operator ends up with `department_id = 1` and no
error. -/
theorem import_department_wildcard_counterexample :
    caseInsensitiveEq (jsTrim "Pro%") "Production" = false ∧
    specResolveDepartment baseStore.departments "Pro%" = none ∧
    resolveDepartment baseStore.departments "Pro%" = some 1 ∧
    (importOperators baseStore [wildcardRow] 0).errors = [] ∧
    ∃ o ∈ (importOperators baseStore [wildcardRow] 0).store.operators,
      o.email = "jane@x.com" ∧ o.department_id = some 1 := by
  decide

/-- C7 (amended): the department name is matched as a case-insensitive
`LIKE` pattern (`%`/`_` wildcards, backslash escape); when the trimmed
name contains no such metacharacters this coincides with the claimed
case-insensitive exact match; and when no department matches, a valid row
is still inserted as an operator with a null department reference and no
error. -/
theorem import_department_resolution (depts : List Department)
    (dn : String) (s : Store) (r : ImportRow) (t : Nat) :
    (noLikeSpecials (jsTrim dn) = true →
      resolveDepartment depts dn = specResolveDepartment depts dn) ∧
    (rowBlank r = false →
      (∀ o ∈ s.operators, o.email ≠ rowEmail r) →
      (∀ o ∈ s.operators, rowEmp r = none ∨ o.employee_id ≠ rowEmp r) →
      rowDept s.departments r = none →
      processRow s r t = (none, { s with
        operators := s.operators ++
          [⟨s.next_operator_id, rowName r, rowEmail r, rowEmp r, none,
            rowSkill r, "offline", t⟩]
        next_operator_id := s.next_operator_id + 1 })) := by
  constructor
  · intro hns
    unfold resolveDepartment specResolveDepartment
    rw [find?_congr_fun _ _ ?pt]
    case pt =>
      intro d
      rw [likeMatches_noSpecials _ _ (noLikeSpecials_spec hns)]
      rfl
  · intro hblank hfresh hemp hdept
    unfold processRow
    rw [if_neg (fun hx => Bool.noConfusion (hblank ▸ hx))]
    rw [hdept]
    unfold upsertOperator
    rw [show s.operators.find? (fun o => o.email == rowEmail r) = none
      from List.find?_eq_none.mpr (fun o ho => by simp [hfresh o ho])]
    dsimp only
    rcases hx : rowEmp r with _ | e
    · rfl
    · have hcond : (s.operators.any fun o =>
          o.employee_id == some e) = false := by
        rw [List.any_eq_false]
        intro o ho
        rcases hemp o ho with hn | hne
        · rw [hx] at hn
          cases hn
        · rw [hx] at hne
          simp [hne]
      simp [hcond]

/-- C7 (witness): a name with no wildcards resolves identically under
`ILIKE` and case-insensitive equality, and importing a row whose
department does not exist inserts the operator with a null department and
no error. -/
theorem import_department_resolution_witness :
    resolveDepartment baseStore.departments "production" =
      specResolveDepartment baseStore.departments "production" ∧
    processRow baseStore nodeptRow 0 = (none, { baseStore with
      operators := baseStore.operators ++
        [⟨2, "Jane Doe", "jane@x.com", some "EMP9", none, "advanced",
          "offline", 0⟩]
      next_operator_id := 3 }) := by
  have h := import_department_resolution baseStore.departments
    "production" baseStore nodeptRow 0
  refine ⟨h.1 (by decide), ?_⟩
  rw [h.2 (by decide) (by decide) (by decide) (by decide)]
  decide

lemma nodup_filterMap_emp_update (e nm : String) (em : Option String)
    (dp : Option Nat) (sk : String) :
    ∀ l : List Operator,
    (l.map Operator.email).Nodup →
    (l.filterMap Operator.employee_id).Nodup →
    (∀ x, em = some x → ∀ o ∈ l, o.employee_id = some x →
      o.email = e) →
    ((l.map (fun o => if o.email == e then
      { o with name := nm, employee_id := em, department_id := dp,
               skill_level := sk } else o)).filterMap
      Operator.employee_id).Nodup := by
  intro l
  induction l with
  | nil =>
    intro _ _ _
    simp
  | cons o t ih =>
    intro hmail hemp hfresh
    rw [List.map_cons, List.nodup_cons] at hmail
    have hempt : (t.filterMap Operator.employee_id).Nodup := by
      cases ho : o.employee_id with
      | none =>
        rw [List.filterMap_cons_none ho] at hemp
        exact hemp
      | some y =>
        rw [List.filterMap_cons_some ho] at hemp
        exact (List.nodup_cons.mp hemp).2
    rw [List.map_cons]
    by_cases he : o.email = e
    · have hmailt : ∀ o2 ∈ t, o2.email ≠ e := by
        intro o2 ho2 he2
        apply hmail.1
        rw [he, ← he2]
        exact List.mem_map_of_mem Operator.email ho2
      have hid : t.map (fun o => if o.email == e then
          { o with name := nm, employee_id := em, department_id := dp,
                   skill_level := sk } else o) = t := by
        apply map_id_of
        intro o2 ho2
        exact if_neg (fun hb => hmailt o2 ho2 (by simpa using hb))
      rw [hid, if_pos (by simpa using he)]
      cases hem : em with
      | none =>
        show (t.filterMap Operator.employee_id).Nodup
        exact hempt
      | some x =>
        show (x :: t.filterMap Operator.employee_id).Nodup
        rw [List.nodup_cons]
        refine ⟨?_, hempt⟩
        intro hxmem
        rcases List.mem_filterMap.mp hxmem with ⟨o2, ho2, ho2e⟩
        exact hmailt o2 ho2
          (hfresh x hem o2 (List.mem_cons_of_mem o ho2) ho2e)
    · rw [if_neg (fun hb => he (by simpa using hb))]
      have iht := ih hmail.2 hempt
        (fun x hx o2 ho2 ho2e =>
          hfresh x hx o2 (List.mem_cons_of_mem o ho2) ho2e)
      cases ho : o.employee_id with
      | none =>
        rw [List.filterMap_cons_none ho]
        exact iht
      | some y =>
        rw [List.filterMap_cons_some ho]
        rw [List.nodup_cons]
        refine ⟨?_, iht⟩
        intro hymem
        have hynotint : y ∉ t.filterMap Operator.employee_id := by
          rw [List.filterMap_cons_some ho] at hemp
          exact (List.nodup_cons.mp hemp).1
        rcases List.mem_filterMap.mp hymem with ⟨o2', ho2', hyo⟩
        rcases List.mem_map.mp ho2' with ⟨o2, ho2, rfl⟩
        by_cases he2 : o2.email = e
        · rw [if_pos (by simpa using he2)] at hyo
          exact he (hfresh y hyo o (List.mem_cons_self o t) ho)
        · rw [if_neg (fun hb => he2 (by simpa using hb))] at hyo
          exact hynotint (List.mem_filterMap.mpr ⟨o2, ho2, hyo⟩)

lemma upsertOperator_ok_cases {s : Store} {nm em : String}
    {emp : Option String} {dp : Option Nat} {sk : String} {t : Nat}
    {s' : Store} (h : upsertOperator s nm em emp dp sk t = .ok s') :
    (∃ o0, s.operators.find? (fun o => o.email == em) = some o0 ∧
      (∀ x, emp = some x → ∀ o ∈ s.operators, o.id ≠ o0.id →
        o.employee_id ≠ some x) ∧
      s' = { s with operators := s.operators.map (fun o =>
        if o.email == em then
          { o with name := nm, employee_id := emp, department_id := dp,
                   skill_level := sk }
        else o) }) ∨
    (s.operators.find? (fun o => o.email == em) = none ∧
      (∀ x, emp = some x → ∀ o ∈ s.operators,
        o.employee_id ≠ some x) ∧
      s' = { s with
        operators := s.operators ++
          [⟨s.next_operator_id, nm, em, emp, dp, sk, "offline", t⟩]
        next_operator_id := s.next_operator_id + 1 }) := by
  unfold upsertOperator at h
  rcases hf : s.operators.find? (fun o => o.email == em) with _ | o0
  · rw [hf] at h
    dsimp only at h
    split at h
    · simp at h
    · rename_i hg
      right
      refine ⟨hf, ?_, ?_⟩
      · intro x hx o ho hoe
        apply hg
        rw [hx]
        exact List.any_eq_true.mpr ⟨o, ho, by simp [hoe]⟩
      · rw [← Except.ok.injEq]
        exact h.symm
  · rw [hf] at h
    dsimp only at h
    split at h
    · simp at h
    · rename_i hg
      left
      refine ⟨o0, hf, ?_, ?_⟩
      · intro x hx o ho hid hoe
        apply hg
        rw [hx]
        exact List.any_eq_true.mpr ⟨o, ho, by simp [hid, hoe]⟩
      · rw [← Except.ok.injEq]
        exact h.symm

lemma upsertOperator_ok_invariants {s : Store} {nm em : String}
    {emp : Option String} {dp : Option Nat} {sk : String} {t : Nat}
    {s' : Store} (h : upsertOperator s nm em emp dp sk t = .ok s')
    (hmail : emailUnique s) (hemp : employeeUnique s)
    (hwf : operatorsWF s) :
    emailUnique s' ∧ employeeUnique s' ∧ operatorsWF s' := by
  rcases upsertOperator_ok_cases h with
    ⟨o0, hf, hguard, rfl⟩ | ⟨hf, hguard, rfl⟩
  · have ho0mem : o0 ∈ s.operators := List.mem_of_find?_eq_some hf
    have ho0em : o0.email = em := by
      simpa using List.find?_some hf
    refine ⟨?_, ?_, ?_, ?_⟩
    · show ((s.operators.map _).map Operator.email).Nodup
      rw [List.map_map]
      rw [List.map_congr_left (g := Operator.email) ?pt]
      · exact hmail
      case pt =>
        intro o _
        simp only [Function.comp_apply]
        split <;> rfl
    · apply nodup_filterMap_emp_update em nm emp dp sk s.operators hmail
        hemp
      intro x hx o ho hoe
      by_cases hid : o.id = o0.id
      · have : o = o0 := by
          apply List.inj_on_of_nodup_map hwf.1 ho ho0mem
          exact hid
        rw [this, ho0em]
      · exact absurd hoe (hguard x hx o ho hid)
    · show ((s.operators.map _).map Operator.id).Nodup
      rw [List.map_map]
      rw [List.map_congr_left (g := Operator.id) ?pt2]
      · exact hwf.1
      case pt2 =>
        intro o _
        simp only [Function.comp_apply]
        split <;> rfl
    · intro o ho
      rcases List.mem_map.mp ho with ⟨o2, ho2, rfl⟩
      have := hwf.2 o2 ho2
      split <;> exact this
  · have hfresh : ∀ o ∈ s.operators, o.email ≠ em := by
      intro o ho he
      have := List.find?_eq_none.mp hf o ho
      simp [he] at this
    refine ⟨?_, ?_, ?_, ?_⟩
    · show ((s.operators ++ _).map Operator.email).Nodup
      rw [List.map_append, List.nodup_append]
      refine ⟨hmail, by simp, ?_⟩
      intro x hx hx2
      rcases List.mem_map.mp hx with ⟨o, ho, rfl⟩
      simp at hx2
      exact hfresh o ho hx2
    · show ((s.operators ++ _).filterMap Operator.employee_id).Nodup
      rw [List.filterMap_append]
      cases hem : emp with
      | none => simpa using hemp
      | some x =>
        rw [List.nodup_append]
        refine ⟨hemp, by simp, ?_⟩
        intro y hy hy2
        simp at hy2
        rcases List.mem_filterMap.mp hy with ⟨o, ho, hoy⟩
        rw [hy2] at hoy
        exact hguard x hem o ho hoy
    · show ((s.operators ++ _).map Operator.id).Nodup
      rw [List.map_append, List.nodup_append]
      refine ⟨hwf.1, by simp, ?_⟩
      intro x hx hx2
      rcases List.mem_map.mp hx with ⟨o, ho, rfl⟩
      simp at hx2
      have := hwf.2 o ho
      omega
    · intro o ho
      rcases List.mem_append.mp ho with ho | ho
      · have := hwf.2 o ho
        show o.id < s.next_operator_id + 1
        omega
      · rcases List.mem_singleton.mp ho with rfl
        show s.next_operator_id < s.next_operator_id + 1
        omega

lemma find?_eq_some_of_email_unique {l : List Operator} {o : Operator}
    {em : String} (hn : (l.map Operator.email).Nodup) (ho : o ∈ l)
    (he : o.email = em) :
    l.find? (fun o2 => o2.email == em) = some o := by
  induction l with
  | nil => cases ho
  | cons a t ih =>
    rw [List.map_cons, List.nodup_cons] at hn
    by_cases ha : a.email = em
    · have hoa : o = a := by
        rcases List.mem_cons.mp ho with rfl | ho2
        · rfl
        · have : a.email ∈ t.map Operator.email := by
            rw [ha, ← he]
            exact List.mem_map_of_mem Operator.email ho2
          exact absurd this hn.1
      rw [hoa, List.find?_cons_of_pos]
      simp [ha]
    · rcases List.mem_cons.mp ho with rfl | ho2
      · exact absurd he ha
      · rw [List.find?_cons_of_neg]
        · exact ih hn.2 ho2
        · simp [ha]

lemma upsertOperator_ok_departments {s : Store} {nm em : String}
    {emp : Option String} {dp : Option Nat} {sk : String} {t : Nat}
    {s' : Store} (h : upsertOperator s nm em emp dp sk t = .ok s') :
    s'.departments = s.departments := by
  rcases upsertOperator_ok_cases h with ⟨_, _, _, rfl⟩ | ⟨_, _, rfl⟩ <;> rfl

lemma upsertOperator_ok_applied {s : Store} {r : ImportRow} {t : Nat}
    {s' : Store}
    (h : upsertOperator s (rowName r) (rowEmail r) (rowEmp r)
      (rowDept s.departments r) (rowSkill r) t = .ok s') :
    rowApplied s' r := by
  rcases upsertOperator_ok_cases h with ⟨o0, hf, _, rfl⟩ | ⟨hf, _, rfl⟩
  · have ho0 : o0 ∈ s.operators := List.mem_of_find?_eq_some hf
    have ho0em : o0.email = rowEmail r := by simpa using List.find?_some hf
    refine ⟨_, List.mem_map_of_mem _ ho0, ?_⟩
    rw [if_pos (by simp [ho0em])]
    exact ⟨ho0em, rfl, rfl, rfl, rfl⟩
  · exact ⟨⟨s.next_operator_id, rowName r, rowEmail r, rowEmp r,
      rowDept s.departments r, rowSkill r, "offline", t⟩,
      by simp, rfl, rfl, rfl, rfl, rfl⟩

lemma upsertOperator_preserves_applied {s s' : Store} {nm em' : String}
    {emp : Option String} {dp : Option Nat} {sk : String} {t : Nat}
    {r : ImportRow} (h : upsertOperator s nm em' emp dp sk t = .ok s')
    (hr : rowApplied s r) (hne : rowEmail r ≠ em') : rowApplied s' r := by
  obtain ⟨o, ho, he, hn, hemp2, hd, hs⟩ := hr
  rcases upsertOperator_ok_cases h with ⟨o0, hf, hg, rfl⟩ | ⟨hf, hg, rfl⟩
  · have hcond : (o.email == em') = false := by
      rw [he]
      exact beq_false_of_ne hne
    have hfo : (fun o2 => if o2.email == em' then
        { o2 with name := nm, employee_id := emp, department_id := dp,
                  skill_level := sk } else o2) o = o := by
      dsimp only
      rw [if_neg (by simp [hcond])]
    refine ⟨o, ?_, he, hn, hemp2, hd, hs⟩
    exact hfo ▸ List.mem_map_of_mem _ ho
  · exact ⟨o, List.mem_append_left _ ho, he, hn, hemp2, hd, hs⟩

lemma processRow_snd_inv {s : Store} {r : ImportRow} {t : Nat}
    {e : Option ImportError} {s' : Store}
    (h : processRow s r t = (e, s'))
    (hmail : emailUnique s) (hemp : employeeUnique s)
    (hwf : operatorsWF s) :
    emailUnique s' ∧ employeeUnique s' ∧ operatorsWF s' ∧
      s'.departments = s.departments := by
  unfold processRow at h
  split at h
  · injection h with h1 h2
    subst h2
    exact ⟨hmail, hemp, hwf, rfl⟩
  · rcases hu : upsertOperator s (rowName r) (rowEmail r) (rowEmp r)
        (rowDept s.departments r) (rowSkill r) t with e2 | s2 <;>
      rw [hu] at h <;> dsimp only at h
    · injection h with h1 h2
      subst h2
      exact ⟨hmail, hemp, hwf, rfl⟩
    · injection h with h1 h2
      subst h2
      obtain ⟨a, b, c⟩ := upsertOperator_ok_invariants hu hmail hemp hwf
      exact ⟨a, b, c, upsertOperator_ok_departments hu⟩

lemma processRow_none_applied {s : Store} {r : ImportRow} {t : Nat}
    {s' : Store} (h : processRow s r t = (none, s')) :
    rowApplied s' r := by
  unfold processRow at h
  split at h
  · simp at h
  · rcases hu : upsertOperator s (rowName r) (rowEmail r) (rowEmp r)
        (rowDept s.departments r) (rowSkill r) t with e2 | s2 <;>
      rw [hu] at h <;> dsimp only at h
    · simp at h
    · injection h with h1 h2
      subst h2
      exact upsertOperator_ok_applied hu

lemma processRow_nonblank_of_none {s : Store} {r : ImportRow} {t : Nat}
    {s' : Store} (h : processRow s r t = (none, s')) :
    rowBlank r = false := by
  by_contra hbb
  have hbb2 : rowBlank r = true := by simpa using hbb
  unfold processRow at h
  rw [if_pos hbb2] at h
  simp at h

lemma processRow_preserves_applied {s : Store} {r' : ImportRow} {t : Nat}
    {e : Option ImportError} {s' : Store} {r : ImportRow}
    (h : processRow s r' t = (e, s')) (hr : rowApplied s r)
    (hne : rowBlank r' = false → rowEmail r ≠ rowEmail r') :
    rowApplied s' r := by
  unfold processRow at h
  split at h
  · injection h with h1 h2
    subst h2
    exact hr
  · rename_i hb
    have hbf : rowBlank r' = false := by simpa using hb
    rcases hu : upsertOperator s (rowName r') (rowEmail r') (rowEmp r')
        (rowDept s.departments r') (rowSkill r') t with e2 | s2 <;>
      rw [hu] at h <;> dsimp only at h
    · injection h with h1 h2
      subst h2
      exact hr
    · injection h with h1 h2
      subst h2
      exact upsertOperator_preserves_applied hu hr (hne hbf)

lemma importOperators_cons (s : Store) (r : ImportRow)
    (rs : List ImportRow) (t : Nat) :
    (importOperators s (r :: rs) t).store =
      (importOperators (processRow s r t).2 rs t).store := by
  rcases hp : processRow s r t with ⟨e, s1⟩
  cases e <;> simp [importOperators, hp]

lemma importOperators_preserves_applied {r : ImportRow} :
    ∀ (rows : List ImportRow) (s : Store) (t : Nat),
      rowApplied s r →
      (∀ r' ∈ rows, rowBlank r' = false → rowEmail r ≠ rowEmail r') →
      rowApplied (importOperators s rows t).store r := by
  intro rows
  induction rows with
  | nil => intro s t hr _; exact hr
  | cons r' rs ih =>
    intro s t hr hne
    rw [importOperators_cons]
    rcases hp : processRow s r' t with ⟨e, s1⟩
    have hr1 : rowApplied s1 r :=
      processRow_preserves_applied hp hr
        (fun hb => hne r' (List.mem_cons_self r' rs) hb)
    exact ih s1 t hr1 (fun r2 h2 => hne r2 (List.mem_cons_of_mem r' h2))

lemma processRow_fixpoint {s : Store} {r : ImportRow} {t : Nat}
    (hb : rowBlank r = false) (hr : rowApplied s r)
    (hmail : emailUnique s) (hemp : employeeUnique s) :
    processRow s r t = (none, s) := by
  obtain ⟨o, ho, he, hn, hemp2, hd, hs⟩ := hr
  have hfind : s.operators.find? (fun o2 => o2.email == rowEmail r) =
      some o := find?_eq_some_of_email_unique hmail ho he
  have hguard : (match rowEmp r with
      | some e => s.operators.any (fun o2 =>
          !(o2.id == o.id) && o2.employee_id == some e)
      | none => false) = false := by
    rcases hx : rowEmp r with _ | e
    · rfl
    · rw [List.any_eq_false]
      intro o2 ho2 hcontra
      rw [Bool.and_eq_true] at hcontra
      obtain ⟨hid, hemp3⟩ := hcontra
      have h2e : o2.employee_id = some e := by simpa using hemp3
      have hoe : o.employee_id = some e := by rw [hemp2, hx]
      have ho2o : o2 = o := nodup_filterMap_inj hemp ho2 ho h2e hoe
      rw [ho2o] at hid
      simp at hid
  have hmap : s.operators.map (fun o2 => if o2.email == rowEmail r then
      { o2 with name := rowName r, employee_id := rowEmp r,
                department_id := rowDept s.departments r,
                skill_level := rowSkill r } else o2) = s.operators := by
    apply map_id_of
    intro o2 ho2
    by_cases he2 : o2.email = rowEmail r
    · have ho2o : o2 = o := List.inj_on_of_nodup_map hmail ho2 ho
        (by rw [he2, he])
      subst ho2o
      rw [if_pos (by simp [he2])]
      rw [← hn, ← hemp2, ← hd, ← hs]
    · rw [if_neg (by simp [he2])]
  have hupsert : upsertOperator s (rowName r) (rowEmail r) (rowEmp r)
      (rowDept s.departments r) (rowSkill r) t = .ok s := by
    unfold upsertOperator
    rw [hfind]
    dsimp only
    rw [hguard]
    rw [if_neg (by simp)]
    rw [hmap]
  unfold processRow
  rw [if_neg (by simp [hb])]
  rw [hupsert]

lemma importOperators_fixpoint :
    ∀ (rows : List ImportRow) (s : Store) (t : Nat),
      emailUnique s → employeeUnique s →
      (∀ r ∈ rows, rowBlank r = false → rowApplied s r) →
      (importOperators s rows t).store = s := by
  intro rows
  induction rows with
  | nil => intro s t _ _ _; rfl
  | cons r rs ih =>
    intro s t hmail hemp hall
    rw [importOperators_cons]
    by_cases hb : rowBlank r = true
    · have hp : processRow s r t =
          (some (.skippedMissingNameOrEmail r), s) := by
        unfold processRow
        rw [if_pos hb]
      rw [hp]
      exact ih s t hmail hemp
        (fun r2 h2 hb2 => hall r2 (List.mem_cons_of_mem r h2) hb2)
    · have hbf : rowBlank r = false := by simpa using hb
      have hp : processRow s r t = (none, s) :=
        processRow_fixpoint hbf (hall r (List.mem_cons_self r rs) hbf)
          hmail hemp
      rw [hp]
      exact ih s t hmail hemp
        (fun r2 h2 hb2 => hall r2 (List.mem_cons_of_mem r h2) hb2)

lemma importOperators_post :
    ∀ (rows : List ImportRow) (s : Store) (t : Nat),
      emailUnique s → employeeUnique s → operatorsWF s →
      ((rows.filter (fun r2 => !rowBlank r2)).map rowEmail).Nodup →
      cleanRun s rows t = true →
      emailUnique (importOperators s rows t).store ∧
      employeeUnique (importOperators s rows t).store ∧
      operatorsWF (importOperators s rows t).store ∧
      (∀ r ∈ rows, rowBlank r = false →
        rowApplied (importOperators s rows t).store r) := by
  intro rows
  induction rows with
  | nil =>
    intro s t hmail hemp hwf _ _
    exact ⟨hmail, hemp, hwf, by intro r hr; cases hr⟩
  | cons r rs ih =>
    intro s t hmail hemp hwf hdist hclean
    rw [importOperators_cons]
    unfold cleanRun at hclean
    rcases hp : processRow s r t with ⟨e, s1⟩
    rw [hp] at hclean
    obtain ⟨hm1, he1, hw1, hdep1⟩ := processRow_snd_inv hp hmail hemp hwf
    rcases e with _ | e0
    · have hbf : rowBlank r = false := processRow_nonblank_of_none hp
      have happ : rowApplied s1 r := processRow_none_applied hp
      have hclean1 : cleanRun s1 rs t = true := hclean
      rw [List.filter_cons, if_pos (by simp [hbf]), List.map_cons,
        List.nodup_cons] at hdist
      obtain ⟨ihm, ihe, ihw, ihall⟩ := ih s1 t hm1 he1 hw1 hdist.2 hclean1
      refine ⟨ihm, ihe, ihw, ?_⟩
      intro r2 hr2 hb2
      rcases List.mem_cons.mp hr2 with rfl | hr2'
      · apply importOperators_preserves_applied rs s1 t happ
        intro r3 hr3 hb3 heq
        exact hdist.1 (heq ▸ List.mem_map_of_mem rowEmail
          (List.mem_filter.mpr ⟨hr3, by simp [hb3]⟩))
      · exact ihall r2 hr2' hb2
    · rcases e0 with r0 | r0
      · have hsame : s1 = s ∧ rowBlank r = true := by
          unfold processRow at hp
          by_cases hbb : rowBlank r = true
          · rw [if_pos hbb] at hp
            injection hp with h1 h2
            exact ⟨h2.symm, hbb⟩
          · rw [if_neg hbb] at hp
            rcases hu : upsertOperator s (rowName r) (rowEmail r)
                (rowEmp r) (rowDept s.departments r) (rowSkill r) t
              with e2 | s2 <;> rw [hu] at hp <;> dsimp only at hp <;>
              simp at hp
        obtain ⟨rfl, hbb⟩ := hsame
        have hclean1 : cleanRun s1 rs t = true := hclean
        rw [List.filter_cons, if_neg (by simp [hbb])] at hdist
        obtain ⟨ihm, ihe, ihw, ihall⟩ := ih s1 t hmail hemp hwf hdist
          hclean1
        refine ⟨ihm, ihe, ihw, ?_⟩
        intro r2 hr2 hb2
        rcases List.mem_cons.mp hr2 with rfl | hr2'
        · rw [hb2] at hbb
          exact Bool.noConfusion hbb
        · exact ihall r2 hr2' hb2
      · exact absurd (show false = true from hclean) (by simp)

/-- C8, counterexample: importing `idemRows` into `baseStore` twice is not
idempotent.  The first run fails on the first row (its employee id `E1` is
still held by the stored operator) and then frees `E1` by updating that
operator through the second row; the second run therefore inserts the first
row as a new operator, so one import yields one operator but two imports
yield two. -/
theorem import_idempotence_counterexample :
    cleanRun baseStore idemRows 0 = false ∧
    (importOperators baseStore idemRows 0).store.operators.length = 1 ∧
    (importOperators (importOperators baseStore idemRows 0).store
      idemRows 0).store.operators.length = 2 := by decide

/-- C8 (amended): when the starting store satisfies the schema invariants
(unique emails, unique employee ids, well-formed primary keys), the
non-blank rows carry pairwise-distinct trimmed emails, and the first import
runs without any caught row failure, importing the same rows a second time
updates the operators matched by email with the same values and creates no
duplicates, so the store after two identical imports equals the store after
one. -/
theorem import_idempotent (s : Store) (rows : List ImportRow)
    (t1 t2 : Nat) (hmail : emailUnique s) (hemp : employeeUnique s)
    (hwf : operatorsWF s)
    (hdist : ((rows.filter (fun r2 => !rowBlank r2)).map rowEmail).Nodup)
    (hclean : cleanRun s rows t1 = true) :
    (importOperators (importOperators s rows t1).store rows t2).store =
      (importOperators s rows t1).store := by
  obtain ⟨hm, he, hw, hall⟩ :=
    importOperators_post rows s t1 hmail hemp hwf hdist hclean
  exact importOperators_fixpoint rows (importOperators s rows t1).store t2
    hm he hall

/-- C8, witness: a clean import of `mixedRows` into `baseStore` (one fresh
operator inserted, one blank row skipped) followed by the same import again
leaves the store unchanged. -/
theorem import_idempotent_witness :
    (importOperators (importOperators baseStore mixedRows 0).store
      mixedRows 5).store = (importOperators baseStore mixedRows 0).store :=
  import_idempotent baseStore mixedRows 0 5 (by decide) (by decide)
    (by decide) (by decide) (by decide)

end PulseOpTrail
